import Mathlib

/-!
Verification of the streaming DISTINCT operator
(`dbms/src/DataStreams/DistinctBlockInputStream.cpp`) and of the error kinds
of the file read buffer (`dbms/src/IO/ReadBufferFromFile.cpp`).

The operator consumes blocks of columnar data and emits, in input order, only
the first occurrence of each row under a configurable key, enforcing
row/byte limits with Throw or Break overflow policy.  The embedding below
translates the data model and `readImpl`, `checkLimits`, `buildFilter`,
`getKeyColumns` from the source.  The hash-table method variants
(`SetVariants`) are represented by the set of keys they store, in insertion
order: by the source's own invariant the chosen variant affects performance
only, never identity semantics, and `buildFilter` is generic in the variant.
-/

set_option maxHeartbeats 1000000

namespace DB

/-- Cell values of a column.  Integers and strings suffice for every key
shape the claims exercise (fixed-width and variable-length keys). -/
inductive Val where
  | int (i : Int)
  | str (s : String)
deriving DecidableEq, Repr, Inhabited

/-- A column is either a materialized array of values ("plain") or a single
value logically broadcast to a number of rows ("constant"),
as in `IColumn` / `ColumnConst`. -/
inductive Column where
  | plain (vals : List Val)
  | const (len : Nat) (v : Val)
deriving DecidableEq, Repr

/-- `IColumn::size()`. -/
def Column.size : Column → Nat
  | .plain vals => vals.length
  | .const len _ => len

/-- `IColumn::isConst()`. -/
def Column.isConst : Column → Bool
  | .plain _ => false
  | .const _ _ => true

/-- The values a plain column materializes; `none` for a constant column.
Used by the key extractor, which ignores all constant columns. -/
def Column.plainVals : Column → Option (List Val)
  | .plain vals => some vals
  | .const _ _ => none

/-- Number of rows an `IColumn::Filter` selects (`countBytesInFilter`). -/
def countTrue (f : List Bool) : Nat := f.count true

/-- The rows of a list selected by a boolean filter, in order
(the row-selection core of `IColumn::filter`). -/
def selectTrue {α : Type} : List Bool → List α → List α
  | true :: f, x :: xs => x :: selectTrue f xs
  | false :: f, _ :: xs => selectTrue f xs
  | _, _ => []

/-- `IColumn::filter(filt, -1)`: keep the rows where the filter is true.  A
constant column keeps its value and gets the selected row count as its new
size (`ColumnConst::filter`). -/
def Column.filter (c : Column) (f : List Bool) : Column :=
  match c with
  | .plain vals => .plain (selectTrue f vals)
  | .const _ v => .const (countTrue f) v

/-- The per-row values a column carries (a constant column broadcast). -/
def Column.valsList : Column → List Val
  | .plain vals => vals
  | .const len v => List.replicate len v

/-- `ColumnWithTypeAndName`, reduced to the parts the operator touches. -/
structure ColumnWithName where
  name : String
  col : Column
deriving DecidableEq, Repr

/-- A block: an ordered sequence of named columns, all of equal length in a
well-formed block. -/
structure Block where
  cols : List ColumnWithName
deriving DecidableEq, Repr

/-- `Block::rows()`: the row count, read off the columns. -/
def Block.rows (b : Block) : Nat :=
  match b.cols with
  | [] => 0
  | c :: _ => c.col.size

/-- `Block::getByName`: the first column carrying the name, if any
(the C++ throws when the name is absent; here `none`). -/
def Block.getByName (b : Block) (n : String) : Option ColumnWithName :=
  b.cols.find? (fun c => c.name == n)

/-- All columns of a block have the block's row count. -/
def BlockWf (b : Block) : Prop := ∀ c ∈ b.cols, c.col.size = b.rows

/-- Every block of a list is well-formed. -/
def BlocksWf (l : List Block) : Prop := ∀ b ∈ l, BlockWf b

instance (b : Block) : Decidable (BlockWf b) :=
  inferInstanceAs (Decidable (∀ c ∈ b.cols, c.col.size = b.rows))

instance (l : List Block) : Decidable (BlocksWf l) :=
  inferInstanceAs (Decidable (∀ b ∈ l, BlockWf b))

/-- The candidate columns named by a configured list, in configured order:
`block.getByName(columns_names[i])` for each `i`, `none` as soon as a lookup
fails (where the C++ `getByName` throws). -/
def lookupCols (b : Block) : List String → Option (List Column)
  | [] => some []
  | n :: ns =>
    match b.getByName n with
    | none => none
    | some c => (lookupCols b ns).map (fun cs => c.col :: cs)

/-- `DistinctBlockInputStream::getKeyColumns`: if the configured name list is
empty take every column of the block in position order, otherwise exactly the
named columns in configured order (`none` when a name is absent from the
block, where the C++ `getByName` throws); constant columns are dropped. -/
def getKeyColumns (columns_names : List String) (b : Block) :
    Option (List (List Val)) :=
  (if columns_names.isEmpty then some (b.cols.map (fun c => c.col))
   else lookupCols b columns_names).map
    (fun cs => cs.filterMap Column.plainVals)

/-- A row's key: the tuple of key-column values at that row. -/
abbrev Key := List Val

/-- The keys of rows `0 .. n-1` over the given key columns, in row order:
row `i`'s key is the tuple of the key columns' values at index `i`
(`Method::State::getKey` inside the `buildFilter` loop). -/
def rowKeysN (kcols : List (List Val)) (n : Nat) : List Key :=
  (List.range n).map (fun i => kcols.map (fun vs => vs.getD i default))

/-- The distinct-key state (`SetVariants`), represented by the keys it holds
in insertion order.  The runtime-chosen method variant is not represented:
the source's invariant makes it irrelevant to identity semantics, and the
`data.type` switch in `readImpl` always reaches `buildFilter` once key
columns are non-empty. -/
structure OpState where
  keys : List Key
deriving DecidableEq, Repr

/-- `SetVariants::getTotalRowCount`: number of distinct keys stored. -/
def OpState.getTotalRowCount (s : OpState) : Nat := s.keys.length

/-- Modelled from the spec: the per-value retained byte size used by
`SetVariants::getTotalByteCount`, whose code (the `SetVariants` container) is
not among the repository's files; the spec describes it as the sum of
retained key byte sizes including pooled variable-length storage. -/
def Val.byteSize : Val → Nat
  | .int _ => 8
  | .str s => s.length

/-- Modelled from the spec: bytes retained for one stored key. -/
def keyByteSize (k : Key) : Nat := (k.map Val.byteSize).sum

/-- Modelled from the spec: `SetVariants::getTotalByteCount`, the cumulative
approximate byte count of the stored keys. -/
def OpState.getTotalByteCount (s : OpState) : Nat :=
  (s.keys.map keyByteSize).sum

/-- One `method.data.emplace(key, it, inserted)`: insert a key, reporting
whether it created a brand-new entry.  Existing entries are never removed or
overwritten. -/
def OpState.insertKey (s : OpState) (k : Key) : OpState × Bool :=
  if k ∈ s.keys then (s, false) else (⟨s.keys ++ [k]⟩, true)

/-- `DistinctBlockInputStream::buildFilter`: process the row keys in order,
inserting each into the distinct-key state; `filter[i] = true` iff row `i`'s
key was new. -/
def buildFilter : OpState → List Key → OpState × List Bool
  | s, [] => (s, [])
  | s, k :: ks =>
    let p := s.insertKey k
    let q := buildFilter p.1 ks
    (q.1, p.2 :: q.2)

/-- `OverflowMode` as the operator recognizes it. -/
inductive OverflowMode where
  | THROW
  | BREAK
deriving DecidableEq, Repr

/-- The construction-time configuration of the operator:
key column names, `limit_hint`, `max_rows_in_distinct`,
`max_bytes_in_distinct`, `distinct_overflow_mode`. -/
structure Config where
  columns_names : List String
  limit_hint : Nat
  max_rows : Nat
  max_bytes : Nat
  overflow_mode : OverflowMode
deriving Repr

/-- `DistinctBlockInputStream::checkLimits`: false when a nonzero row limit
is exceeded by the cumulative distinct-row count, or a nonzero byte limit by
the cumulative byte count. -/
def checkLimits (cfg : Config) (s : OpState) : Bool :=
  if cfg.max_rows ≠ 0 ∧ cfg.max_rows < s.getTotalRowCount then false
  else if cfg.max_bytes ≠ 0 ∧ cfg.max_bytes < s.getTotalByteCount then false
  else true

/-- The compaction step of `readImpl`: apply the filter to every column of
the block independently, preserving column order. -/
def filterBlock (b : Block) (f : List Bool) : Block :=
  ⟨b.cols.map (fun c => ⟨c.name, c.col.filter f⟩)⟩

/-- What one pull returns to the caller: a block, end-of-data (the C++
returns an empty `Block()`), the thrown "DISTINCT-Set size limit exceeded"
exception with the four values its message carries, or the exception thrown
by `Block::getByName` for a missing configured column name. -/
inductive PullResult where
  | endOfData
  | block (b : Block)
  | limitError (rows rowLimit bytes byteLimit : Nat)
  | nameError
deriving DecidableEq, Repr

/-- Whether a pull result is the thrown limit exception. -/
def PullResult.isLimitError : PullResult → Bool
  | .limitError _ _ _ _ => true
  | _ => false

/-- `DistinctBlockInputStream::readImpl`.  The upstream source is the list of
blocks it will deliver before signaling end-of-data; a pull returns its
result, the distinct-key state after the pull, and the blocks not yet
consumed.  The loop: check the row-count hint, read one block (a block
without columns is the upstream end-of-data signal, checked by `if (!block)`;
with an exhausted upstream the hint check and the read both give end-of-data,
folded into the `[]` case), extract key columns (a failed name lookup
propagates as an exception), return an all-constant-key block unchanged, run
the insertion pass, skip the block and continue when it added no new key,
apply the overflow policy on a limit violation, otherwise compact by the
filter and return. -/
def readImpl (cfg : Config) : OpState → List Block → PullResult × OpState × List Block
  | s, [] => (.endOfData, s, [])
  | s, b :: rest =>
    if cfg.limit_hint ≠ 0 ∧ cfg.limit_hint ≤ s.getTotalRowCount then
      (.endOfData, s, b :: rest)
    else if b.cols.isEmpty then (.endOfData, s, rest)
    else
      match getKeyColumns cfg.columns_names b with
      | none => (.nameError, s, rest)
      | some kcols =>
        if kcols.isEmpty then (.block b, s, rest)
        else
          let p := buildFilter s (rowKeysN kcols b.rows)
          if p.1.getTotalRowCount = s.getTotalRowCount then
            readImpl cfg p.1 rest
          else if checkLimits cfg p.1 then
            (.block (filterBlock b p.2), p.1, rest)
          else
            match cfg.overflow_mode with
            | .THROW =>
              (.limitError p.1.getTotalRowCount cfg.max_rows
                p.1.getTotalByteCount cfg.max_bytes, p.1, rest)
            | .BREAK => (.endOfData, p.1, rest)

/-- The whole stream: pull until end-of-data or an error, collecting the
returned blocks; also the final distinct-key state and how the stream ended.
This unfolds iterated `readImpl` pulls (theorem `runAll_eq_readImpl`). -/
def runAll (cfg : Config) : OpState → List Block → List Block × OpState × PullResult
  | s, [] => ([], s, .endOfData)
  | s, b :: rest =>
    if cfg.limit_hint ≠ 0 ∧ cfg.limit_hint ≤ s.getTotalRowCount then
      ([], s, .endOfData)
    else if b.cols.isEmpty then ([], s, .endOfData)
    else
      match getKeyColumns cfg.columns_names b with
      | none => ([], s, .nameError)
      | some kcols =>
        if kcols.isEmpty then
          let r := runAll cfg s rest
          (b :: r.1, r.2)
        else
          let p := buildFilter s (rowKeysN kcols b.rows)
          if p.1.getTotalRowCount = s.getTotalRowCount then
            runAll cfg p.1 rest
          else if checkLimits cfg p.1 then
            let r := runAll cfg p.1 rest
            (filterBlock b p.2 :: r.1, r.2)
          else
            match cfg.overflow_mode with
            | .THROW =>
              ([], p.1, .limitError p.1.getTotalRowCount cfg.max_rows
                p.1.getTotalByteCount cfg.max_bytes)
            | .BREAK => ([], p.1, .endOfData)

/-- The keys of a block's rows under the operator's resolved key columns;
`[]` for a block whose key columns resolve empty or fail to resolve. -/
def blockKeys (columns_names : List String) (b : Block) : List Key :=
  match getKeyColumns columns_names b with
  | some kcols => if kcols.isEmpty then [] else rowKeysN kcols b.rows
  | none => []

/-- The key tuple of every row of a block under the resolved key columns,
including the empty tuple for every row of a block whose key columns resolve
empty (the data model excludes constant columns from the key, so rows of such
a block are indistinguishable by the key). -/
def rowKeyTuples (columns_names : List String) (b : Block) : List Key :=
  match getKeyColumns columns_names b with
  | some kcols => rowKeysN kcols b.rows
  | none => []

/-- A block read by row: row `i` is the tuple of all its columns' values at
index `i`. -/
def blockRows (b : Block) : List (List Val) :=
  rowKeysN (b.cols.map (fun c => c.col.valsList)) b.rows

/-! Concrete inputs used by the counterexamples and witnesses. -/

/-- Key configured on column `a` alone, no hint, no limits. -/
def cexConfig : Config := ⟨["a"], 0, 0, 0, .THROW⟩

/-- A block whose only key column is constant: two rows, both `a = 5`. -/
def cexBlock : Block := ⟨[⟨"a", .const 2 (.int 5)⟩]⟩

/-- All columns as key, `max_rows = 1`, Break overflow mode. -/
def breakConfig : Config := ⟨[], 0, 1, 0, .BREAK⟩

/-- One plain column with two distinct rows. -/
def blkTwo : Block := ⟨[⟨"a", .plain [.int 1, .int 2]⟩]⟩

/-- One constant column, one row. -/
def blkConst : Block := ⟨[⟨"a", .const 1 (.int 7)⟩]⟩

/-- The spec's concrete scenario configuration: key `[a, b]`. -/
def scenConfig : Config := ⟨["a", "b"], 0, 0, 0, .THROW⟩

/-- First scenario block: rows `(1,"x"), (1,"y"), (2,"x")`. -/
def scenBlock1 : Block :=
  ⟨[⟨"a", .plain [.int 1, .int 1, .int 2]⟩,
    ⟨"b", .plain [.str "x", .str "y", .str "x"]⟩]⟩

/-- Second scenario block: rows `(1,"x"), (3,"z")`. -/
def scenBlock2 : Block :=
  ⟨[⟨"a", .plain [.int 1, .int 3]⟩,
    ⟨"b", .plain [.str "x", .str "z"]⟩]⟩

/-- Throw-mode configuration with `max_rows = 2`. -/
def throwConfig : Config := ⟨[], 0, 2, 0, .THROW⟩

/-- Hint configuration: `limit_hint = 1`. -/
def hintConfig : Config := ⟨[], 1, 0, 0, .THROW⟩

/-- Configuration naming a column `"zz"` that the blocks do not carry. -/
def missConfig : Config := ⟨["zz"], 0, 0, 0, .THROW⟩

/-! The file read buffer (`ReadBufferFromFile.cpp`). -/

/-- The error codes the file read buffer raises. -/
inductive FileErrorCode where
  | FILE_DOESNT_EXIST
  | CANNOT_OPEN_FILE
  | CANNOT_CLOSE_FILE
deriving DecidableEq, Repr

/-- The `errno` value for "no such file or directory". -/
def ENOENT : Nat := 2

/-- The open-by-name constructor of `ReadBufferFromFile`, as a function of
what the underlying `open` call returned (`-1` on failure) and the `errno` it
left: on failure it throws `FILE_DOESNT_EXIST` when `errno == ENOENT` and
`CANNOT_OPEN_FILE` otherwise, and on success yields the descriptor.  (The
`__APPLE__`-only `F_NOCACHE` branch is outside this model.) -/
def readBufferOpen (openRet : Int) (openErrno : Nat) : Except FileErrorCode Int :=
  if openRet = -1 then
    .error (if openErrno = ENOENT then .FILE_DOESNT_EXIST else .CANNOT_OPEN_FILE)
  else .ok openRet

/-- `ReadBufferFromFile::close`, as a function of what the underlying
`::close` call returned: any nonzero return throws `CANNOT_CLOSE_FILE`. -/
def readBufferClose (closeRet : Int) : Except FileErrorCode Unit :=
  if closeRet ≠ 0 then .error .CANNOT_CLOSE_FILE else .ok ()

/-! Helper lemmas. -/

theorem OpState.eq_of_keys {s t : OpState} (h : s.keys = t.keys) : s = t := by
  cases s; cases t; cases h; rfl

theorem selectTrue_nil_left {α : Type} (xs : List α) : selectTrue [] xs = [] := by
  cases xs <;> rfl

theorem selectTrue_nil_right {α : Type} (f : List Bool) :
    selectTrue f ([] : List α) = [] := by
  cases f with
  | nil => rfl
  | cons b f => cases b <;> rfl

theorem selectTrue_cons_true {α : Type} (f : List Bool) (x : α) (xs : List α) :
    selectTrue (true :: f) (x :: xs) = x :: selectTrue f xs := rfl

theorem selectTrue_cons_false {α : Type} (f : List Bool) (x : α) (xs : List α) :
    selectTrue (false :: f) (x :: xs) = selectTrue f xs := rfl

theorem countTrue_nil : countTrue [] = 0 := rfl

theorem countTrue_cons (b : Bool) (f : List Bool) :
    countTrue (b :: f) = countTrue f + (if b then 1 else 0) := by
  cases b <;> simp [countTrue, List.count_cons]

theorem selectTrue_length {α : Type} :
    ∀ (f : List Bool) (xs : List α), f.length = xs.length →
      (selectTrue f xs).length = countTrue f := by
  intro f
  induction f with
  | nil => intro xs _; simp [selectTrue_nil_left, countTrue_nil]
  | cons b f ih =>
    intro xs h
    cases xs with
    | nil => simp at h
    | cons x xs =>
      simp only [List.length_cons, Nat.add_right_cancel_iff] at h
      cases b with
      | true => simp [selectTrue_cons_true, countTrue_cons, ih xs h]
      | false => simp [selectTrue_cons_false, countTrue_cons, ih xs h]

theorem selectTrue_sublist {α : Type} :
    ∀ (f : List Bool) (xs : List α), (selectTrue f xs).Sublist xs := by
  intro f
  induction f with
  | nil => intro xs; simp [selectTrue_nil_left]
  | cons b f ih =>
    intro xs
    cases xs with
    | nil => simp [selectTrue_nil_right]
    | cons x xs =>
      cases b with
      | true => exact (ih xs).cons₂ x
      | false => exact (ih xs).cons x

theorem selectTrue_replicate {α : Type} :
    ∀ (f : List Bool) (n : Nat) (v : α), f.length = n →
      selectTrue f (List.replicate n v) = List.replicate (countTrue f) v := by
  intro f
  induction f with
  | nil => intro n v h; simp [selectTrue_nil_left, countTrue_nil, ← h]
  | cons b f ih =>
    intro n v h
    cases n with
    | zero => simp at h
    | succ n =>
      simp only [List.length_cons, Nat.add_right_cancel_iff] at h
      rw [List.replicate_succ]
      cases b with
      | true =>
        rw [selectTrue_cons_true, countTrue_cons, ih n v h]
        simp [List.replicate_succ]
      | false =>
        rw [selectTrue_cons_false, countTrue_cons, ih n v h]
        simp

theorem rowKeysN_length (kcols : List (List Val)) (n : Nat) :
    (rowKeysN kcols n).length = n := by
  simp [rowKeysN]

theorem rowKeysN_zero (kcols : List (List Val)) : rowKeysN kcols 0 = [] := by
  simp [rowKeysN]

theorem rowKeysN_succ (kcols : List (List Val)) (n : Nat) :
    rowKeysN kcols (n + 1)
      = kcols.map (fun vs => vs.getD 0 default)
        :: rowKeysN (kcols.map List.tail) n := by
  unfold rowKeysN
  rw [List.range_succ_eq_map, List.map_cons, List.map_map]
  congr 1
  apply List.map_congr_left
  intro i _
  simp only [Function.comp_apply, List.map_map]
  apply List.map_congr_left
  intro vs _
  simp only [Function.comp_apply]
  cases vs <;> simp [List.getD]

theorem buildFilter_snd_length :
    ∀ (ks : List Key) (s : OpState), (buildFilter s ks).2.length = ks.length := by
  intro ks
  induction ks with
  | nil => intro s; rfl
  | cons k ks ih => intro s; simp only [buildFilter, List.length_cons, ih]

theorem buildFilter_keys :
    ∀ (ks : List Key) (s : OpState),
      (buildFilter s ks).1.keys = s.keys ++ selectTrue (buildFilter s ks).2 ks := by
  intro ks
  induction ks with
  | nil => intro s; simp [buildFilter, selectTrue_nil_left]
  | cons k ks ih =>
    intro s
    by_cases hk : k ∈ s.keys
    · simp only [buildFilter, OpState.insertKey, if_pos hk]
      rw [selectTrue_cons_false]
      exact ih s
    · simp only [buildFilter, OpState.insertKey, if_neg hk]
      rw [selectTrue_cons_true, ih ⟨s.keys ++ [k]⟩]
      simp

theorem buildFilter_nodup :
    ∀ (ks : List Key) (s : OpState), s.keys.Nodup → (buildFilter s ks).1.keys.Nodup := by
  intro ks
  induction ks with
  | nil => intro s h; exact h
  | cons k ks ih =>
    intro s h
    by_cases hk : k ∈ s.keys
    · simp only [buildFilter, OpState.insertKey, if_pos hk]
      exact ih s h
    · simp only [buildFilter, OpState.insertKey, if_neg hk]
      refine ih ⟨s.keys ++ [k]⟩ ?_
      simp [List.nodup_append, h, hk]

theorem buildFilter_keys_length (ks : List Key) (s : OpState) :
    (buildFilter s ks).1.keys.length
      = s.keys.length + (selectTrue (buildFilter s ks).2 ks).length := by
  rw [buildFilter_keys ks s]
  simp

theorem buildFilter_fst_eq (ks : List Key) (s : OpState)
    (h : (buildFilter s ks).1.getTotalRowCount = s.getTotalRowCount) :
    (buildFilter s ks).1 = s := by
  apply OpState.eq_of_keys
  have hl := buildFilter_keys_length ks s
  simp only [OpState.getTotalRowCount] at h
  rw [h] at hl
  have h0 : (selectTrue (buildFilter s ks).2 ks).length = 0 := by omega
  have he : selectTrue (buildFilter s ks).2 ks = [] := List.length_eq_zero.mp h0
  rw [buildFilter_keys ks s, he, List.append_nil]

theorem lookupCols_eq_none (b : Block) :
    ∀ (names : List String) (n : String), n ∈ names → b.getByName n = none →
      lookupCols b names = none := by
  intro names
  induction names with
  | nil => intro n hn; simp at hn
  | cons m ms ih =>
    intro n hn hmiss
    rcases List.mem_cons.mp hn with h | h
    · subst h
      simp [lookupCols, hmiss]
    · cases hm : b.getByName m with
      | none => simp [lookupCols, hm]
      | some c => simp [lookupCols, hm, ih n h hmiss]

theorem lookupCols_mem (b : Block) :
    ∀ (names : List String) (cs : List Column), lookupCols b names = some cs →
      ∀ c ∈ cs, ∃ cw ∈ b.cols, cw.col = c := by
  intro names
  induction names with
  | nil =>
    intro cs h c hc
    simp only [lookupCols, Option.some.injEq] at h
    subst h
    simp at hc
  | cons m ms ih =>
    intro cs h c hc
    cases hm : b.getByName m with
    | none => simp [lookupCols, hm] at h
    | some cw =>
      cases hl : lookupCols b ms with
      | none => simp [lookupCols, hm, hl] at h
      | some cs0 =>
        simp only [lookupCols, hm, hl] at h
        simp at h
        subst h
        rcases List.mem_cons.mp hc with h | h
        · refine ⟨cw, ?_, h.symm⟩
          exact List.mem_of_find?_eq_some hm
        · exact ih cs0 hl c h

theorem find?_name_map (g : Column → Column) (n : String) :
    ∀ (cols : List ColumnWithName),
      (cols.map (fun c => (⟨c.name, g c.col⟩ : ColumnWithName))).find?
          (fun c => c.name == n)
        = (cols.find? (fun c => c.name == n)).map
            (fun c => (⟨c.name, g c.col⟩ : ColumnWithName)) := by
  intro cols
  induction cols with
  | nil => rfl
  | cons c cols ih =>
    cases h : (c.name == n) with
    | true => simp [List.find?_cons, h]
    | false => simp [List.find?_cons, h, ih]

theorem getByName_filterBlock (b : Block) (f : List Bool) (n : String) :
    (filterBlock b f).getByName n
      = (b.getByName n).map (fun c => ⟨c.name, c.col.filter f⟩) := by
  unfold Block.getByName filterBlock
  exact find?_name_map (fun c => c.filter f) n b.cols

theorem lookupCols_filterBlock (b : Block) (f : List Bool) :
    ∀ (names : List String),
      lookupCols (filterBlock b f) names
        = (lookupCols b names).map (List.map (fun c => c.filter f)) := by
  intro names
  induction names with
  | nil => rfl
  | cons m ms ih =>
    cases hm : b.getByName m with
    | none => simp [lookupCols, getByName_filterBlock, hm]
    | some cw =>
      cases hl : lookupCols b ms with
      | none => simp [lookupCols, getByName_filterBlock, hm, hl, ih]
      | some cs0 => simp [lookupCols, getByName_filterBlock, hm, hl, ih]

theorem plainVals_filter (c : Column) (f : List Bool) :
    (c.filter f).plainVals = c.plainVals.map (selectTrue f) := by
  cases c <;> rfl

theorem filterMap_plainVals_filter (f : List Bool) :
    ∀ (cs : List Column),
      (cs.map (fun c => c.filter f)).filterMap Column.plainVals
        = (cs.filterMap Column.plainVals).map (selectTrue f) := by
  intro cs
  induction cs with
  | nil => rfl
  | cons c cs ih =>
    cases c with
    | plain vals =>
      show (Column.plain (selectTrue f vals)
              :: cs.map (fun c => c.filter f)).filterMap Column.plainVals
          = ((Column.plain vals :: cs).filterMap Column.plainVals).map (selectTrue f)
      simp only [List.filterMap_cons, Column.plainVals]
      simp [ih]
    | const len v =>
      show (Column.const (countTrue f) v
              :: cs.map (fun c => c.filter f)).filterMap Column.plainVals
          = ((Column.const len v :: cs).filterMap Column.plainVals).map (selectTrue f)
      simp only [List.filterMap_cons, Column.plainVals]
      exact ih

theorem getKeyColumns_filterBlock (names : List String) (b : Block) (f : List Bool)
    (kcols : List (List Val)) (h : getKeyColumns names b = some kcols) :
    getKeyColumns names (filterBlock b f) = some (kcols.map (selectTrue f)) := by
  unfold getKeyColumns at h ⊢
  cases hn : names.isEmpty with
  | true =>
    rw [hn, if_pos rfl] at h
    rw [if_pos rfl]
    simp only [Option.map_some', Option.some.injEq] at h ⊢
    subst h
    show ((b.cols.map (fun c => (⟨c.name, c.col.filter f⟩ : ColumnWithName))).map
            (fun c => c.col)).filterMap Column.plainVals = _
    rw [List.map_map]
    have hcomp : (fun (c : ColumnWithName) => c.col)
          ∘ (fun c => (⟨c.name, c.col.filter f⟩ : ColumnWithName))
        = (fun c => c.filter f) ∘ (fun (c : ColumnWithName) => c.col) := rfl
    rw [hcomp, ← List.map_map]
    exact filterMap_plainVals_filter f (b.cols.map (fun c => c.col))
  | false =>
    rw [hn, if_neg (by simp)] at h
    rw [if_neg (by simp)]
    cases hl : lookupCols b names with
    | none => rw [hl] at h; simp at h
    | some cs0 =>
      rw [hl] at h
      simp only [Option.map_some', Option.some.injEq] at h
      subst h
      rw [lookupCols_filterBlock b f names, hl]
      simp only [Option.map_some', Option.some.injEq]
      exact filterMap_plainVals_filter f cs0

theorem getKeyColumns_mem_length (names : List String) (b : Block)
    (kcols : List (List Val)) (h : getKeyColumns names b = some kcols)
    (hwf : BlockWf b) : ∀ vs ∈ kcols, vs.length = b.rows := by
  intro vs hvs
  unfold getKeyColumns at h
  have hcand : ∃ cs : List Column,
      (∀ c ∈ cs, ∃ cw ∈ b.cols, cw.col = c) ∧ kcols = cs.filterMap Column.plainVals := by
    cases hn : names.isEmpty with
    | true =>
      refine ⟨b.cols.map (fun c => c.col), ?_, ?_⟩
      · intro c hc
        rcases List.mem_map.mp hc with ⟨cw, hcw, rfl⟩
        exact ⟨cw, hcw, rfl⟩
      · rw [hn, if_pos rfl] at h
        simp only [Option.map_some', Option.some.injEq] at h
        exact h.symm
    | false =>
      rw [hn, if_neg (by simp)] at h
      cases hl : lookupCols b names with
      | none => rw [hl] at h; simp at h
      | some cs0 =>
        rw [hl] at h
        simp only [Option.map_some', Option.some.injEq] at h
        exact ⟨cs0, lookupCols_mem b names cs0 hl, h.symm⟩
  rcases hcand with ⟨cs, hcs, rfl⟩
  rcases List.mem_filterMap.mp hvs with ⟨c, hc, hpv⟩
  rcases hcs c hc with ⟨cw, hcw, rfl⟩
  cases hcol : cw.col with
  | plain vals =>
    rw [hcol] at hpv
    simp only [Column.plainVals, Option.some.injEq] at hpv
    subst hpv
    have := hwf cw hcw
    rw [hcol] at this
    exact this
  | const len v => rw [hcol] at hpv; simp [Column.plainVals] at hpv

theorem filterBlock_rows (b : Block) (f : List Bool) (hb : b.cols ≠ [])
    (hwf : BlockWf b) (hf : f.length = b.rows) :
    (filterBlock b f).rows = countTrue f := by
  rcases b with ⟨cols⟩
  cases cols with
  | nil => simp at hb
  | cons c cs =>
    have hf' : f.length = c.col.size := hf
    show (c.col.filter f).size = countTrue f
    cases hcol : c.col with
    | plain vals =>
      rw [hcol] at hf'
      exact selectTrue_length f vals hf'
    | const len v => rfl

theorem valsList_length (c : Column) : c.valsList.length = c.size := by
  cases c <;> simp [Column.valsList, Column.size]

theorem valsList_filter (c : Column) (f : List Bool) (h : f.length = c.size) :
    (c.filter f).valsList = selectTrue f c.valsList := by
  cases c with
  | plain vals => rfl
  | const len v =>
    show List.replicate (countTrue f) v = selectTrue f (List.replicate len v)
    exact (selectTrue_replicate f len v h).symm

theorem selectTrue_rowKeysN :
    ∀ (n : Nat) (f : List Bool) (kcols : List (List Val)),
      (∀ vs ∈ kcols, vs.length = n) → f.length = n →
      selectTrue f (rowKeysN kcols n)
        = rowKeysN (kcols.map (selectTrue f)) (countTrue f) := by
  intro n
  induction n with
  | zero =>
    intro f kcols _ hf
    have : f = [] := List.length_eq_zero.mp hf
    subst this
    rw [rowKeysN_zero, selectTrue_nil_left, countTrue_nil, rowKeysN_zero]
  | succ n ih =>
    intro f kcols hlen hf
    cases f with
    | nil => simp at hf
    | cons bf f' =>
      simp only [List.length_cons, Nat.add_right_cancel_iff] at hf
      have hshape : ∀ vs ∈ kcols, ∃ v vs0, vs = v :: vs0 := by
        intro vs hvs
        cases vs with
        | nil => exact absurd (hlen _ hvs) (by simp)
        | cons v vs0 => exact ⟨v, vs0, rfl⟩
      have hlen' : ∀ vs ∈ kcols.map List.tail, vs.length = n := by
        intro vs hvs
        rcases List.mem_map.mp hvs with ⟨vs0, hvs0, rfl⟩
        have := hlen vs0 hvs0
        simp [List.length_tail, this]
      rw [rowKeysN_succ]
      cases bf with
      | false =>
        rw [selectTrue_cons_false, ih f' (kcols.map List.tail) hlen' hf]
        have hcols : kcols.map (selectTrue (false :: f'))
            = (kcols.map List.tail).map (selectTrue f') := by
          rw [List.map_map]
          apply List.map_congr_left
          intro vs hvs
          rcases hshape vs hvs with ⟨v, vs0, rfl⟩
          rfl
        rw [hcols, countTrue_cons]
        simp
      | true =>
        rw [selectTrue_cons_true, ih f' (kcols.map List.tail) hlen' hf]
        have hct : countTrue (true :: f') = countTrue f' + 1 := by
          rw [countTrue_cons]; simp
        rw [hct, rowKeysN_succ]
        congr 1
        · rw [List.map_map]
          apply List.map_congr_left
          intro vs hvs
          rcases hshape vs hvs with ⟨v, vs0, rfl⟩
          rfl
        · congr 1
          rw [List.map_map, List.map_map]
          apply List.map_congr_left
          intro vs hvs
          rcases hshape vs hvs with ⟨v, vs0, rfl⟩
          rfl

theorem blockKeys_filterBlock (names : List String) (b : Block) (f : List Bool)
    (kcols : List (List Val)) (h : getKeyColumns names b = some kcols)
    (hne : kcols ≠ []) (hb : b.cols ≠ []) (hwf : BlockWf b)
    (hf : f.length = b.rows) :
    blockKeys names (filterBlock b f) = selectTrue f (rowKeysN kcols b.rows) := by
  unfold blockKeys
  rw [getKeyColumns_filterBlock names b f kcols h]
  have hmapne : (kcols.map (selectTrue f)).isEmpty = false := by
    cases kcols with
    | nil => exact absurd rfl hne
    | cons k ks => rfl
  show (if (kcols.map (selectTrue f)).isEmpty = true then []
        else rowKeysN (kcols.map (selectTrue f)) (filterBlock b f).rows)
      = selectTrue f (rowKeysN kcols b.rows)
  rw [hmapne, if_neg (by simp)]
  rw [filterBlock_rows b f hb hwf hf]
  exact (selectTrue_rowKeysN b.rows f kcols
    (getKeyColumns_mem_length names b kcols h hwf) hf).symm

theorem blockRows_filterBlock (b : Block) (f : List Bool) (hwf : BlockWf b)
    (hf : f.length = b.rows) :
    blockRows (filterBlock b f) = selectTrue f (blockRows b) := by
  rcases b with ⟨cols⟩
  cases cols with
  | nil =>
    show rowKeysN ([] : List (List Val)) 0 = selectTrue f (rowKeysN [] 0)
    rw [rowKeysN_zero, selectTrue_nil_right]
  | cons c cs =>
    unfold blockRows
    rw [filterBlock_rows _ f (by simp) hwf hf]
    have hcols : (filterBlock ⟨c :: cs⟩ f).cols.map (fun cw => cw.col.valsList)
        = ((⟨c :: cs⟩ : Block).cols.map (fun cw => cw.col.valsList)).map
            (selectTrue f) := by
      show ((c :: cs).map
              (fun cw => (⟨cw.name, cw.col.filter f⟩ : ColumnWithName))).map
            (fun cw => cw.col.valsList) = _
      rw [List.map_map, List.map_map]
      apply List.map_congr_left
      intro cw hcw
      exact valsList_filter cw.col f (hf.trans (hwf cw hcw).symm)
    rw [hcols]
    refine (selectTrue_rowKeysN _ f _ ?_ hf).symm
    intro vs hvs
    rcases List.mem_map.mp hvs with ⟨cw, hcw, rfl⟩
    rw [valsList_length]
    exact hwf cw hcw

/-! Branch equations of `readImpl` and `runAll`, one per path of the loop. -/

theorem readImpl_hint_stop (cfg : Config) (s : OpState) (b : Block)
    (rest : List Block)
    (h : cfg.limit_hint ≠ 0 ∧ cfg.limit_hint ≤ s.getTotalRowCount) :
    readImpl cfg s (b :: rest) = (.endOfData, s, b :: rest) := by
  rw [readImpl, if_pos h]

theorem readImpl_empty_block (cfg : Config) (s : OpState) (b : Block)
    (rest : List Block)
    (hh : ¬(cfg.limit_hint ≠ 0 ∧ cfg.limit_hint ≤ s.getTotalRowCount))
    (hbc : b.cols.isEmpty = true) :
    readImpl cfg s (b :: rest) = (.endOfData, s, rest) := by
  rw [readImpl, if_neg hh, hbc, if_pos rfl]

theorem readImpl_name_error (cfg : Config) (s : OpState) (b : Block)
    (rest : List Block)
    (hh : ¬(cfg.limit_hint ≠ 0 ∧ cfg.limit_hint ≤ s.getTotalRowCount))
    (hbc : b.cols.isEmpty = false)
    (hkc : getKeyColumns cfg.columns_names b = none) :
    readImpl cfg s (b :: rest) = (.nameError, s, rest) := by
  rw [readImpl, if_neg hh, hbc, if_neg (by simp), hkc]

theorem readImpl_passthrough (cfg : Config) (s : OpState) (b : Block)
    (rest : List Block)
    (hh : ¬(cfg.limit_hint ≠ 0 ∧ cfg.limit_hint ≤ s.getTotalRowCount))
    (hbc : b.cols.isEmpty = false)
    (hkc : getKeyColumns cfg.columns_names b = some []) :
    readImpl cfg s (b :: rest) = (.block b, s, rest) := by
  rw [readImpl, if_neg hh, hbc, if_neg (by simp), hkc]
  rfl

theorem readImpl_skip (cfg : Config) (s : OpState) (b : Block) (rest : List Block)
    (hh : ¬(cfg.limit_hint ≠ 0 ∧ cfg.limit_hint ≤ s.getTotalRowCount))
    (hbc : b.cols.isEmpty = false)
    (kcols : List (List Val)) (hkc : getKeyColumns cfg.columns_names b = some kcols)
    (hkne : kcols.isEmpty = false)
    (heq : (buildFilter s (rowKeysN kcols b.rows)).1.getTotalRowCount
      = s.getTotalRowCount) :
    readImpl cfg s (b :: rest)
      = readImpl cfg (buildFilter s (rowKeysN kcols b.rows)).1 rest := by
  rw [readImpl, if_neg hh, hbc, if_neg (by simp), hkc]
  simp only [hkne, Bool.false_eq_true, if_false, if_pos heq]

theorem readImpl_emit (cfg : Config) (s : OpState) (b : Block) (rest : List Block)
    (hh : ¬(cfg.limit_hint ≠ 0 ∧ cfg.limit_hint ≤ s.getTotalRowCount))
    (hbc : b.cols.isEmpty = false)
    (kcols : List (List Val)) (hkc : getKeyColumns cfg.columns_names b = some kcols)
    (hkne : kcols.isEmpty = false)
    (hneq : ¬((buildFilter s (rowKeysN kcols b.rows)).1.getTotalRowCount
      = s.getTotalRowCount))
    (hlim : checkLimits cfg (buildFilter s (rowKeysN kcols b.rows)).1 = true) :
    readImpl cfg s (b :: rest)
      = (.block (filterBlock b (buildFilter s (rowKeysN kcols b.rows)).2),
         (buildFilter s (rowKeysN kcols b.rows)).1, rest) := by
  rw [readImpl, if_neg hh, hbc, if_neg (by simp), hkc]
  simp only [hkne, Bool.false_eq_true, if_false, if_neg hneq, hlim, if_true]

theorem readImpl_throw (cfg : Config) (s : OpState) (b : Block) (rest : List Block)
    (hh : ¬(cfg.limit_hint ≠ 0 ∧ cfg.limit_hint ≤ s.getTotalRowCount))
    (hbc : b.cols.isEmpty = false)
    (kcols : List (List Val)) (hkc : getKeyColumns cfg.columns_names b = some kcols)
    (hkne : kcols.isEmpty = false)
    (hneq : ¬((buildFilter s (rowKeysN kcols b.rows)).1.getTotalRowCount
      = s.getTotalRowCount))
    (hlim : checkLimits cfg (buildFilter s (rowKeysN kcols b.rows)).1 = false)
    (hmode : cfg.overflow_mode = .THROW) :
    readImpl cfg s (b :: rest)
      = (.limitError (buildFilter s (rowKeysN kcols b.rows)).1.getTotalRowCount
           cfg.max_rows
           (buildFilter s (rowKeysN kcols b.rows)).1.getTotalByteCount
           cfg.max_bytes,
         (buildFilter s (rowKeysN kcols b.rows)).1, rest) := by
  rw [readImpl, if_neg hh, hbc, if_neg (by simp), hkc]
  simp only [hkne, Bool.false_eq_true, if_false, if_neg hneq, hlim, hmode]

theorem readImpl_break (cfg : Config) (s : OpState) (b : Block) (rest : List Block)
    (hh : ¬(cfg.limit_hint ≠ 0 ∧ cfg.limit_hint ≤ s.getTotalRowCount))
    (hbc : b.cols.isEmpty = false)
    (kcols : List (List Val)) (hkc : getKeyColumns cfg.columns_names b = some kcols)
    (hkne : kcols.isEmpty = false)
    (hneq : ¬((buildFilter s (rowKeysN kcols b.rows)).1.getTotalRowCount
      = s.getTotalRowCount))
    (hlim : checkLimits cfg (buildFilter s (rowKeysN kcols b.rows)).1 = false)
    (hmode : cfg.overflow_mode = .BREAK) :
    readImpl cfg s (b :: rest)
      = (.endOfData, (buildFilter s (rowKeysN kcols b.rows)).1, rest) := by
  rw [readImpl, if_neg hh, hbc, if_neg (by simp), hkc]
  simp only [hkne, Bool.false_eq_true, if_false, if_neg hneq, hlim, hmode]

theorem runAll_hint_stop (cfg : Config) (s : OpState) (b : Block)
    (rest : List Block)
    (h : cfg.limit_hint ≠ 0 ∧ cfg.limit_hint ≤ s.getTotalRowCount) :
    runAll cfg s (b :: rest) = ([], s, .endOfData) := by
  rw [runAll, if_pos h]

theorem runAll_empty_block (cfg : Config) (s : OpState) (b : Block)
    (rest : List Block)
    (hh : ¬(cfg.limit_hint ≠ 0 ∧ cfg.limit_hint ≤ s.getTotalRowCount))
    (hbc : b.cols.isEmpty = true) :
    runAll cfg s (b :: rest) = ([], s, .endOfData) := by
  rw [runAll, if_neg hh, hbc, if_pos rfl]

theorem runAll_name_error (cfg : Config) (s : OpState) (b : Block)
    (rest : List Block)
    (hh : ¬(cfg.limit_hint ≠ 0 ∧ cfg.limit_hint ≤ s.getTotalRowCount))
    (hbc : b.cols.isEmpty = false)
    (hkc : getKeyColumns cfg.columns_names b = none) :
    runAll cfg s (b :: rest) = ([], s, .nameError) := by
  rw [runAll, if_neg hh, hbc, if_neg (by simp), hkc]

theorem runAll_passthrough (cfg : Config) (s : OpState) (b : Block)
    (rest : List Block)
    (hh : ¬(cfg.limit_hint ≠ 0 ∧ cfg.limit_hint ≤ s.getTotalRowCount))
    (hbc : b.cols.isEmpty = false)
    (hkc : getKeyColumns cfg.columns_names b = some []) :
    runAll cfg s (b :: rest)
      = (b :: (runAll cfg s rest).1, (runAll cfg s rest).2) := by
  rw [runAll, if_neg hh, hbc, if_neg (by simp), hkc]
  rfl

theorem runAll_skip (cfg : Config) (s : OpState) (b : Block) (rest : List Block)
    (hh : ¬(cfg.limit_hint ≠ 0 ∧ cfg.limit_hint ≤ s.getTotalRowCount))
    (hbc : b.cols.isEmpty = false)
    (kcols : List (List Val)) (hkc : getKeyColumns cfg.columns_names b = some kcols)
    (hkne : kcols.isEmpty = false)
    (heq : (buildFilter s (rowKeysN kcols b.rows)).1.getTotalRowCount
      = s.getTotalRowCount) :
    runAll cfg s (b :: rest)
      = runAll cfg (buildFilter s (rowKeysN kcols b.rows)).1 rest := by
  rw [runAll, if_neg hh, hbc, if_neg (by simp), hkc]
  simp only [hkne, Bool.false_eq_true, if_false, if_pos heq]

theorem runAll_emit (cfg : Config) (s : OpState) (b : Block) (rest : List Block)
    (hh : ¬(cfg.limit_hint ≠ 0 ∧ cfg.limit_hint ≤ s.getTotalRowCount))
    (hbc : b.cols.isEmpty = false)
    (kcols : List (List Val)) (hkc : getKeyColumns cfg.columns_names b = some kcols)
    (hkne : kcols.isEmpty = false)
    (hneq : ¬((buildFilter s (rowKeysN kcols b.rows)).1.getTotalRowCount
      = s.getTotalRowCount))
    (hlim : checkLimits cfg (buildFilter s (rowKeysN kcols b.rows)).1 = true) :
    runAll cfg s (b :: rest)
      = (filterBlock b (buildFilter s (rowKeysN kcols b.rows)).2
           :: (runAll cfg (buildFilter s (rowKeysN kcols b.rows)).1 rest).1,
         (runAll cfg (buildFilter s (rowKeysN kcols b.rows)).1 rest).2) := by
  rw [runAll, if_neg hh, hbc, if_neg (by simp), hkc]
  simp only [hkne, Bool.false_eq_true, if_false, if_neg hneq, hlim, if_true]

theorem runAll_throw (cfg : Config) (s : OpState) (b : Block) (rest : List Block)
    (hh : ¬(cfg.limit_hint ≠ 0 ∧ cfg.limit_hint ≤ s.getTotalRowCount))
    (hbc : b.cols.isEmpty = false)
    (kcols : List (List Val)) (hkc : getKeyColumns cfg.columns_names b = some kcols)
    (hkne : kcols.isEmpty = false)
    (hneq : ¬((buildFilter s (rowKeysN kcols b.rows)).1.getTotalRowCount
      = s.getTotalRowCount))
    (hlim : checkLimits cfg (buildFilter s (rowKeysN kcols b.rows)).1 = false)
    (hmode : cfg.overflow_mode = .THROW) :
    runAll cfg s (b :: rest)
      = ([], (buildFilter s (rowKeysN kcols b.rows)).1,
         .limitError (buildFilter s (rowKeysN kcols b.rows)).1.getTotalRowCount
           cfg.max_rows
           (buildFilter s (rowKeysN kcols b.rows)).1.getTotalByteCount
           cfg.max_bytes) := by
  rw [runAll, if_neg hh, hbc, if_neg (by simp), hkc]
  simp only [hkne, Bool.false_eq_true, if_false, if_neg hneq, hlim, hmode]

theorem runAll_break (cfg : Config) (s : OpState) (b : Block) (rest : List Block)
    (hh : ¬(cfg.limit_hint ≠ 0 ∧ cfg.limit_hint ≤ s.getTotalRowCount))
    (hbc : b.cols.isEmpty = false)
    (kcols : List (List Val)) (hkc : getKeyColumns cfg.columns_names b = some kcols)
    (hkne : kcols.isEmpty = false)
    (hneq : ¬((buildFilter s (rowKeysN kcols b.rows)).1.getTotalRowCount
      = s.getTotalRowCount))
    (hlim : checkLimits cfg (buildFilter s (rowKeysN kcols b.rows)).1 = false)
    (hmode : cfg.overflow_mode = .BREAK) :
    runAll cfg s (b :: rest)
      = ([], (buildFilter s (rowKeysN kcols b.rows)).1, .endOfData) := by
  rw [runAll, if_neg hh, hbc, if_neg (by simp), hkc]
  simp only [hkne, Bool.false_eq_true, if_false, if_neg hneq, hlim, hmode]

theorem checkLimits_eq_true_iff (cfg : Config) (s : OpState) :
    checkLimits cfg s = true ↔
      ((cfg.max_rows = 0 ∨ s.getTotalRowCount ≤ cfg.max_rows) ∧
       (cfg.max_bytes = 0 ∨ s.getTotalByteCount ≤ cfg.max_bytes)) := by
  unfold checkLimits
  split_ifs with h1 h2 <;> simp <;> omega

theorem getTotalRowCount_extend (s s' : OpState) (t : List Key)
    (h : s'.keys = s.keys ++ t) :
    s.getTotalRowCount ≤ s'.getTotalRowCount := by
  simp [OpState.getTotalRowCount, h]

theorem getTotalByteCount_extend (s s' : OpState) (t : List Key)
    (h : s'.keys = s.keys ++ t) :
    s.getTotalByteCount ≤ s'.getTotalByteCount := by
  simp only [OpState.getTotalByteCount, h, List.map_append, List.sum_append]
  exact Nat.le_add_right _ _

theorem checkLimits_false_mono (cfg : Config) (s s' : OpState) (t : List Key)
    (h : s'.keys = s.keys ++ t) (hf : checkLimits cfg s = false) :
    checkLimits cfg s' = false := by
  have h1 := getTotalRowCount_extend s s' t h
  have h2 := getTotalByteCount_extend s s' t h
  cases hcl : checkLimits cfg s' with
  | false => rfl
  | true =>
    exfalso
    have hgood := (checkLimits_eq_true_iff cfg s').mp hcl
    have hbad : ¬(checkLimits cfg s = true) := by rw [hf]; simp
    rw [checkLimits_eq_true_iff] at hbad
    rcases hgood with ⟨hr, hb⟩
    apply hbad
    constructor
    · rcases hr with hr | hr
      · exact Or.inl hr
      · exact Or.inr (le_trans h1 hr)
    · rcases hb with hb | hb
      · exact Or.inl hb
      · exact Or.inr (le_trans h2 hb)

theorem readImpl_keys_extend (cfg : Config) :
    ∀ (input : List Block) (s : OpState),
      ∃ t, ((readImpl cfg s input).2.1).keys = s.keys ++ t := by
  intro input
  induction input with
  | nil => intro s; exact ⟨[], by rw [readImpl]; simp⟩
  | cons b rest ih =>
    intro s
    by_cases hh : cfg.limit_hint ≠ 0 ∧ cfg.limit_hint ≤ s.getTotalRowCount
    · rw [readImpl_hint_stop cfg s b rest hh]; exact ⟨[], by simp⟩
    · cases hbc : b.cols.isEmpty with
      | true => rw [readImpl_empty_block cfg s b rest hh hbc]; exact ⟨[], by simp⟩
      | false =>
        cases hkc : getKeyColumns cfg.columns_names b with
        | none => rw [readImpl_name_error cfg s b rest hh hbc hkc]; exact ⟨[], by simp⟩
        | some kcols =>
          cases kcols with
          | nil =>
            rw [readImpl_passthrough cfg s b rest hh hbc hkc]
            exact ⟨[], by simp⟩
          | cons k0 ks0 =>
            have hkne : (List.cons k0 ks0).isEmpty = false := rfl
            have hbk := buildFilter_keys (rowKeysN (k0 :: ks0) b.rows) s
            by_cases hcnt : (buildFilter s (rowKeysN (k0 :: ks0) b.rows)).1.getTotalRowCount
                = s.getTotalRowCount
            · rw [readImpl_skip cfg s b rest hh hbc _ hkc hkne hcnt]
              rcases ih (buildFilter s (rowKeysN (k0 :: ks0) b.rows)).1 with ⟨t, ht⟩
              refine ⟨selectTrue (buildFilter s (rowKeysN (k0 :: ks0) b.rows)).2
                (rowKeysN (k0 :: ks0) b.rows) ++ t, ?_⟩
              rw [ht, hbk, List.append_assoc]
            · cases hlim : checkLimits cfg (buildFilter s (rowKeysN (k0 :: ks0) b.rows)).1 with
              | true =>
                rw [readImpl_emit cfg s b rest hh hbc _ hkc hkne hcnt hlim]
                exact ⟨_, hbk⟩
              | false =>
                cases hmode : cfg.overflow_mode with
                | THROW =>
                  rw [readImpl_throw cfg s b rest hh hbc _ hkc hkne hcnt hlim hmode]
                  exact ⟨_, hbk⟩
                | BREAK =>
                  rw [readImpl_break cfg s b rest hh hbc _ hkc hkne hcnt hlim hmode]
                  exact ⟨_, hbk⟩

theorem isEmpty_false_of_ne_nil {α : Type} {l : List α} (h : l ≠ []) :
    l.isEmpty = false := by
  cases l with
  | nil => exact absurd rfl h
  | cons a l => rfl

theorem ne_nil_of_isEmpty_false {α : Type} {l : List α} (h : l.isEmpty = false) :
    l ≠ [] := by
  cases l with
  | nil => simp at h
  | cons a l => simp

theorem getKeyColumns_eq_none (names : List String) (b : Block) (n : String)
    (hn : n ∈ names) (hmiss : b.getByName n = none) :
    getKeyColumns names b = none := by
  unfold getKeyColumns
  have hne : names.isEmpty = false := by
    apply isEmpty_false_of_ne_nil
    intro h
    subst h
    simp at hn
  rw [hne, if_neg (by simp), lookupCols_eq_none b names n hn hmiss]
  rfl

theorem blockKeys_of_empty (names : List String) (b : Block)
    (h : getKeyColumns names b = some []) : blockKeys names b = [] := by
  unfold blockKeys
  rw [h]
  rfl

theorem checkLimits_false_preserved (cfg : Config) (input : List Block)
    (s : OpState) (hf : checkLimits cfg s = false) :
    checkLimits cfg ((readImpl cfg s input).2.1) = false := by
  rcases readImpl_keys_extend cfg input s with ⟨t, ht⟩
  exact checkLimits_false_mono cfg s _ t ht hf

theorem readImpl_break_eod (cfg : Config) (hmode : cfg.overflow_mode = .BREAK) :
    ∀ (input : List Block) (s : OpState), checkLimits cfg s = false →
      (∀ b ∈ input, ∃ kc, getKeyColumns cfg.columns_names b = some kc ∧ kc ≠ []) →
      (readImpl cfg s input).1 = .endOfData := by
  intro input
  induction input with
  | nil => intro s _ _; rw [readImpl]
  | cons b rest ih =>
    intro s hf hres
    by_cases hh : cfg.limit_hint ≠ 0 ∧ cfg.limit_hint ≤ s.getTotalRowCount
    · rw [readImpl_hint_stop cfg s b rest hh]
    · cases hbc : b.cols.isEmpty with
      | true => rw [readImpl_empty_block cfg s b rest hh hbc]
      | false =>
        rcases hres b (List.mem_cons_self b rest) with ⟨kc, hkc, hkcne⟩
        cases kcols : kc with
        | nil => exact absurd (by rw [kcols] at hkcne; exact hkcne) (by simp)
        | cons k0 ks0 =>
          rw [kcols] at hkc
          have hkne : (List.cons k0 ks0).isEmpty = false := rfl
          by_cases hcnt : (buildFilter s (rowKeysN (k0 :: ks0) b.rows)).1.getTotalRowCount
              = s.getTotalRowCount
          · rw [readImpl_skip cfg s b rest hh hbc _ hkc hkne hcnt]
            rw [buildFilter_fst_eq _ s hcnt]
            exact ih s hf (fun b' hb' => hres b' (List.mem_cons_of_mem b hb'))
          · have hlim : checkLimits cfg (buildFilter s (rowKeysN (k0 :: ks0) b.rows)).1 = false :=
              checkLimits_false_mono cfg s _ _
                (buildFilter_keys (rowKeysN (k0 :: ks0) b.rows) s) hf
            rw [readImpl_break cfg s b rest hh hbc _ hkc hkne hcnt hlim hmode]

theorem readImpl_break_pull_eod (cfg : Config) (hmode : cfg.overflow_mode = .BREAK) :
    ∀ (input : List Block) (s : OpState), checkLimits cfg s = true →
      checkLimits cfg ((readImpl cfg s input).2.1) = false →
      (readImpl cfg s input).1 = .endOfData := by
  intro input
  induction input with
  | nil =>
    intro s ht hf
    rw [readImpl] at hf
    rw [ht] at hf
    simp at hf
  | cons b rest ih =>
    intro s ht hf
    by_cases hh : cfg.limit_hint ≠ 0 ∧ cfg.limit_hint ≤ s.getTotalRowCount
    · rw [readImpl_hint_stop cfg s b rest hh]
    · cases hbc : b.cols.isEmpty with
      | true => rw [readImpl_empty_block cfg s b rest hh hbc]
      | false =>
        cases hkc : getKeyColumns cfg.columns_names b with
        | none =>
          rw [readImpl_name_error cfg s b rest hh hbc hkc] at hf
          rw [ht] at hf
          simp at hf
        | some kcols =>
          cases kcols with
          | nil =>
            rw [readImpl_passthrough cfg s b rest hh hbc hkc] at hf
            rw [ht] at hf
            simp at hf
          | cons k0 ks0 =>
            have hkne : (List.cons k0 ks0).isEmpty = false := rfl
            by_cases hcnt : (buildFilter s (rowKeysN (k0 :: ks0) b.rows)).1.getTotalRowCount
                = s.getTotalRowCount
            · rw [readImpl_skip cfg s b rest hh hbc _ hkc hkne hcnt] at hf ⊢
              rw [buildFilter_fst_eq _ s hcnt] at hf ⊢
              exact ih s ht hf
            · cases hlim : checkLimits cfg (buildFilter s (rowKeysN (k0 :: ks0) b.rows)).1 with
              | true =>
                rw [readImpl_emit cfg s b rest hh hbc _ hkc hkne hcnt hlim] at hf
                rw [hlim] at hf
                simp at hf
              | false =>
                rw [readImpl_break cfg s b rest hh hbc _ hkc hkne hcnt hlim hmode]

theorem readImpl_break_never_limit_error (cfg : Config)
    (hmode : cfg.overflow_mode = .BREAK) :
    ∀ (input : List Block) (s : OpState),
      ((readImpl cfg s input).1).isLimitError = false := by
  intro input
  induction input with
  | nil => intro s; rw [readImpl]; rfl
  | cons b rest ih =>
    intro s
    by_cases hh : cfg.limit_hint ≠ 0 ∧ cfg.limit_hint ≤ s.getTotalRowCount
    · rw [readImpl_hint_stop cfg s b rest hh]; rfl
    · cases hbc : b.cols.isEmpty with
      | true => rw [readImpl_empty_block cfg s b rest hh hbc]; rfl
      | false =>
        cases hkc : getKeyColumns cfg.columns_names b with
        | none => rw [readImpl_name_error cfg s b rest hh hbc hkc]; rfl
        | some kcols =>
          cases kcols with
          | nil => rw [readImpl_passthrough cfg s b rest hh hbc hkc]; rfl
          | cons k0 ks0 =>
            have hkne : (List.cons k0 ks0).isEmpty = false := rfl
            by_cases hcnt : (buildFilter s (rowKeysN (k0 :: ks0) b.rows)).1.getTotalRowCount
                = s.getTotalRowCount
            · rw [readImpl_skip cfg s b rest hh hbc _ hkc hkne hcnt]
              exact ih _
            · cases hlim : checkLimits cfg (buildFilter s (rowKeysN (k0 :: ks0) b.rows)).1 with
              | true => rw [readImpl_emit cfg s b rest hh hbc _ hkc hkne hcnt hlim]; rfl
              | false =>
                rw [readImpl_break cfg s b rest hh hbc _ hkc hkne hcnt hlim hmode]
                rfl

theorem runAll_keys (cfg : Config) :
    ∀ (input : List Block) (s : OpState), BlocksWf input → s.keys.Nodup →
      ∃ t, ((runAll cfg s input).2.1).keys
            = (s.keys
                ++ (runAll cfg s input).1.flatMap (blockKeys cfg.columns_names))
              ++ t
        ∧ ((runAll cfg s input).2.1).keys.Nodup := by
  intro input
  induction input with
  | nil => intro s _ hnd; rw [runAll]; exact ⟨[], by simp, hnd⟩
  | cons b rest ih =>
    intro s hwf hnd
    have hwfb : BlockWf b := hwf b (List.mem_cons_self b rest)
    have hwfrest : BlocksWf rest := fun b' hb' => hwf b' (List.mem_cons_of_mem b hb')
    by_cases hh : cfg.limit_hint ≠ 0 ∧ cfg.limit_hint ≤ s.getTotalRowCount
    · rw [runAll_hint_stop cfg s b rest hh]; exact ⟨[], by simp, hnd⟩
    · cases hbc : b.cols.isEmpty with
      | true => rw [runAll_empty_block cfg s b rest hh hbc]; exact ⟨[], by simp, hnd⟩
      | false =>
        cases hkc : getKeyColumns cfg.columns_names b with
        | none => rw [runAll_name_error cfg s b rest hh hbc hkc]; exact ⟨[], by simp, hnd⟩
        | some kcols =>
          cases kcols with
          | nil =>
            rw [runAll_passthrough cfg s b rest hh hbc hkc]
            rcases ih s hwfrest hnd with ⟨t, ht, hnd'⟩
            refine ⟨t, ?_, hnd'⟩
            rw [List.flatMap_cons, blockKeys_of_empty _ _ hkc, List.nil_append]
            exact ht
          | cons k0 ks0 =>
            have hkne : (List.cons k0 ks0).isEmpty = false := rfl
            have hbk := buildFilter_keys (rowKeysN (k0 :: ks0) b.rows) s
            by_cases hcnt : (buildFilter s (rowKeysN (k0 :: ks0) b.rows)).1.getTotalRowCount
                = s.getTotalRowCount
            · rw [runAll_skip cfg s b rest hh hbc _ hkc hkne hcnt]
              rw [buildFilter_fst_eq _ s hcnt]
              exact ih s hwfrest hnd
            · have hndp : (buildFilter s (rowKeysN (k0 :: ks0) b.rows)).1.keys.Nodup :=
                buildFilter_nodup _ s hnd
              have hflen : (buildFilter s (rowKeysN (k0 :: ks0) b.rows)).2.length = b.rows := by
                rw [buildFilter_snd_length, rowKeysN_length]
              have hbkeq : blockKeys cfg.columns_names
                    (filterBlock b (buildFilter s (rowKeysN (k0 :: ks0) b.rows)).2)
                  = selectTrue (buildFilter s (rowKeysN (k0 :: ks0) b.rows)).2
                      (rowKeysN (k0 :: ks0) b.rows) :=
                blockKeys_filterBlock cfg.columns_names b _ (k0 :: ks0) hkc
                  (by simp) (ne_nil_of_isEmpty_false hbc) hwfb hflen
              cases hlim : checkLimits cfg (buildFilter s (rowKeysN (k0 :: ks0) b.rows)).1 with
              | true =>
                rw [runAll_emit cfg s b rest hh hbc _ hkc hkne hcnt hlim]
                rcases ih (buildFilter s (rowKeysN (k0 :: ks0) b.rows)).1 hwfrest hndp
                  with ⟨t, ht, hnd'⟩
                refine ⟨t, ?_, hnd'⟩
                rw [List.flatMap_cons, hbkeq, ht, hbk]
                simp [List.append_assoc]
              | false =>
                cases hmode : cfg.overflow_mode with
                | THROW =>
                  rw [runAll_throw cfg s b rest hh hbc _ hkc hkne hcnt hlim hmode]
                  exact ⟨selectTrue (buildFilter s (rowKeysN (k0 :: ks0) b.rows)).2
                    (rowKeysN (k0 :: ks0) b.rows), by simp [hbk], hndp⟩
                | BREAK =>
                  rw [runAll_break cfg s b rest hh hbc _ hkc hkne hcnt hlim hmode]
                  exact ⟨selectTrue (buildFilter s (rowKeysN (k0 :: ks0) b.rows)).2
                    (rowKeysN (k0 :: ks0) b.rows), by simp [hbk], hndp⟩

theorem runAll_emitted_le (cfg : Config) (hK : cfg.max_rows ≠ 0) :
    ∀ (input : List Block) (s : OpState), BlocksWf input →
      s.keys.length ≤ cfg.max_rows →
      s.keys.length
          + ((runAll cfg s input).1.flatMap (blockKeys cfg.columns_names)).length
        ≤ cfg.max_rows := by
  intro input
  induction input with
  | nil =>
    intro s _ hle
    rw [runAll]
    simpa using hle
  | cons b rest ih =>
    intro s hwf hle
    have hwfb : BlockWf b := hwf b (List.mem_cons_self b rest)
    have hwfrest : BlocksWf rest := fun b' hb' => hwf b' (List.mem_cons_of_mem b hb')
    by_cases hh : cfg.limit_hint ≠ 0 ∧ cfg.limit_hint ≤ s.getTotalRowCount
    · rw [runAll_hint_stop cfg s b rest hh]; simpa using hle
    · cases hbc : b.cols.isEmpty with
      | true => rw [runAll_empty_block cfg s b rest hh hbc]; simpa using hle
      | false =>
        cases hkc : getKeyColumns cfg.columns_names b with
        | none => rw [runAll_name_error cfg s b rest hh hbc hkc]; simpa using hle
        | some kcols =>
          cases kcols with
          | nil =>
            rw [runAll_passthrough cfg s b rest hh hbc hkc]
            rw [List.flatMap_cons, blockKeys_of_empty _ _ hkc, List.nil_append]
            exact ih s hwfrest hle
          | cons k0 ks0 =>
            have hkne : (List.cons k0 ks0).isEmpty = false := rfl
            have hbk := buildFilter_keys (rowKeysN (k0 :: ks0) b.rows) s
            by_cases hcnt : (buildFilter s (rowKeysN (k0 :: ks0) b.rows)).1.getTotalRowCount
                = s.getTotalRowCount
            · rw [runAll_skip cfg s b rest hh hbc _ hkc hkne hcnt]
              rw [buildFilter_fst_eq _ s hcnt]
              exact ih s hwfrest hle
            · have hflen : (buildFilter s (rowKeysN (k0 :: ks0) b.rows)).2.length = b.rows := by
                rw [buildFilter_snd_length, rowKeysN_length]
              have hbkeq : blockKeys cfg.columns_names
                    (filterBlock b (buildFilter s (rowKeysN (k0 :: ks0) b.rows)).2)
                  = selectTrue (buildFilter s (rowKeysN (k0 :: ks0) b.rows)).2
                      (rowKeysN (k0 :: ks0) b.rows) :=
                blockKeys_filterBlock cfg.columns_names b _ (k0 :: ks0) hkc
                  (by simp) (ne_nil_of_isEmpty_false hbc) hwfb hflen
              have hplen : (buildFilter s (rowKeysN (k0 :: ks0) b.rows)).1.keys.length
                  = s.keys.length
                    + (selectTrue (buildFilter s (rowKeysN (k0 :: ks0) b.rows)).2
                        (rowKeysN (k0 :: ks0) b.rows)).length := by
                rw [hbk, List.length_append]
              cases hlim : checkLimits cfg (buildFilter s (rowKeysN (k0 :: ks0) b.rows)).1 with
              | true =>
                rw [runAll_emit cfg s b rest hh hbc _ hkc hkne hcnt hlim]
                have hple : (buildFilter s (rowKeysN (k0 :: ks0) b.rows)).1.getTotalRowCount
                    ≤ cfg.max_rows := by
                  rcases ((checkLimits_eq_true_iff cfg _).mp hlim).1 with h | h
                  · exact absurd h hK
                  · exact h
                simp only [OpState.getTotalRowCount] at hple
                have hih := ih (buildFilter s (rowKeysN (k0 :: ks0) b.rows)).1 hwfrest hple
                rw [List.flatMap_cons, hbkeq, List.length_append]
                omega
              | false =>
                cases hmode : cfg.overflow_mode with
                | THROW =>
                  rw [runAll_throw cfg s b rest hh hbc _ hkc hkne hcnt hlim hmode]
                  simpa using hle
                | BREAK =>
                  rw [runAll_break cfg s b rest hh hbc _ hkc hkne hcnt hlim hmode]
                  simpa using hle

theorem runAll_rows_sublist (cfg : Config) :
    ∀ (input : List Block) (s : OpState), BlocksWf input →
      ((runAll cfg s input).1.flatMap blockRows).Sublist
        (input.flatMap blockRows) := by
  intro input
  induction input with
  | nil => intro s _; rw [runAll]
  | cons b rest ih =>
    intro s hwf
    have hwfb : BlockWf b := hwf b (List.mem_cons_self b rest)
    have hwfrest : BlocksWf rest := fun b' hb' => hwf b' (List.mem_cons_of_mem b hb')
    rw [List.flatMap_cons]
    by_cases hh : cfg.limit_hint ≠ 0 ∧ cfg.limit_hint ≤ s.getTotalRowCount
    · rw [runAll_hint_stop cfg s b rest hh]; simp [List.nil_sublist]
    · cases hbc : b.cols.isEmpty with
      | true => rw [runAll_empty_block cfg s b rest hh hbc]; simp [List.nil_sublist]
      | false =>
        cases hkc : getKeyColumns cfg.columns_names b with
        | none => rw [runAll_name_error cfg s b rest hh hbc hkc]; simp [List.nil_sublist]
        | some kcols =>
          cases kcols with
          | nil =>
            rw [runAll_passthrough cfg s b rest hh hbc hkc, List.flatMap_cons]
            exact List.Sublist.append (List.Sublist.refl _) (ih s hwfrest)
          | cons k0 ks0 =>
            have hkne : (List.cons k0 ks0).isEmpty = false := rfl
            by_cases hcnt : (buildFilter s (rowKeysN (k0 :: ks0) b.rows)).1.getTotalRowCount
                = s.getTotalRowCount
            · rw [runAll_skip cfg s b rest hh hbc _ hkc hkne hcnt]
              rw [buildFilter_fst_eq _ s hcnt]
              exact (ih s hwfrest).trans (List.sublist_append_right _ _)
            · have hflen : (buildFilter s (rowKeysN (k0 :: ks0) b.rows)).2.length = b.rows := by
                rw [buildFilter_snd_length, rowKeysN_length]
              cases hlim : checkLimits cfg (buildFilter s (rowKeysN (k0 :: ks0) b.rows)).1 with
              | true =>
                rw [runAll_emit cfg s b rest hh hbc _ hkc hkne hcnt hlim, List.flatMap_cons]
                refine List.Sublist.append ?_ (ih _ hwfrest)
                rw [blockRows_filterBlock b _ hwfb hflen]
                exact selectTrue_sublist _ _
              | false =>
                cases hmode : cfg.overflow_mode with
                | THROW =>
                  rw [runAll_throw cfg s b rest hh hbc _ hkc hkne hcnt hlim hmode]
                  simp [List.nil_sublist]
                | BREAK =>
                  rw [runAll_break cfg s b rest hh hbc _ hkc hkne hcnt hlim hmode]
                  simp [List.nil_sublist]

theorem readImpl_throw_crossing (cfg : Config)
    (hmode : cfg.overflow_mode = .THROW) (hK : cfg.max_rows ≠ 0) :
    ∀ (input : List Block) (s : OpState),
      s.getTotalRowCount ≤ cfg.max_rows →
      cfg.max_rows < ((readImpl cfg s input).2.1).getTotalRowCount →
      (readImpl cfg s input).1
        = .limitError ((readImpl cfg s input).2.1).getTotalRowCount cfg.max_rows
            ((readImpl cfg s input).2.1).getTotalByteCount cfg.max_bytes := by
  intro input
  induction input with
  | nil =>
    intro s hle hgt
    rw [readImpl] at hgt
    exact absurd (show cfg.max_rows < s.getTotalRowCount from hgt) (by omega)
  | cons b rest ih =>
    intro s hle hgt
    by_cases hh : cfg.limit_hint ≠ 0 ∧ cfg.limit_hint ≤ s.getTotalRowCount
    · rw [readImpl_hint_stop cfg s b rest hh] at hgt
      exact absurd (show cfg.max_rows < s.getTotalRowCount from hgt) (by omega)
    · cases hbc : b.cols.isEmpty with
      | true =>
        rw [readImpl_empty_block cfg s b rest hh hbc] at hgt
        exact absurd (show cfg.max_rows < s.getTotalRowCount from hgt) (by omega)
      | false =>
        cases hkc : getKeyColumns cfg.columns_names b with
        | none =>
          rw [readImpl_name_error cfg s b rest hh hbc hkc] at hgt
          exact absurd (show cfg.max_rows < s.getTotalRowCount from hgt) (by omega)
        | some kcols =>
          cases kcols with
          | nil =>
            rw [readImpl_passthrough cfg s b rest hh hbc hkc] at hgt
            exact absurd (show cfg.max_rows < s.getTotalRowCount from hgt) (by omega)
          | cons k0 ks0 =>
            have hkne : (List.cons k0 ks0).isEmpty = false := rfl
            by_cases hcnt : (buildFilter s (rowKeysN (k0 :: ks0) b.rows)).1.getTotalRowCount
                = s.getTotalRowCount
            · rw [readImpl_skip cfg s b rest hh hbc _ hkc hkne hcnt] at hgt ⊢
              rw [buildFilter_fst_eq _ s hcnt] at hgt ⊢
              exact ih s hle hgt
            · cases hlim : checkLimits cfg (buildFilter s (rowKeysN (k0 :: ks0) b.rows)).1 with
              | true =>
                rw [readImpl_emit cfg s b rest hh hbc _ hkc hkne hcnt hlim] at hgt
                have hple : (buildFilter s (rowKeysN (k0 :: ks0) b.rows)).1.getTotalRowCount
                    ≤ cfg.max_rows := by
                  rcases ((checkLimits_eq_true_iff cfg _).mp hlim).1 with h | h
                  · exact absurd h hK
                  · exact h
                exact absurd (show cfg.max_rows
                  < (buildFilter s (rowKeysN (k0 :: ks0) b.rows)).1.getTotalRowCount
                  from hgt) (by omega)
              | false =>
                rw [readImpl_throw cfg s b rest hh hbc _ hkc hkne hcnt hlim hmode]

theorem checkLimits_zero_limits (cfg : Config) (h1 : cfg.max_rows = 0)
    (h2 : cfg.max_bytes = 0) (s : OpState) : checkLimits cfg s = true := by
  rw [checkLimits_eq_true_iff]
  exact ⟨Or.inl h1, Or.inl h2⟩

theorem runAll_throw_reaches (cfg : Config)
    (hmode : cfg.overflow_mode = .THROW) (hK : cfg.max_rows ≠ 0)
    (hB : cfg.max_bytes = 0) (hhint : cfg.limit_hint = 0) :
    ∀ (input : List Block) (s : OpState),
      s.getTotalRowCount ≤ cfg.max_rows →
      cfg.max_rows < ((runAll {cfg with max_rows := 0} s input).2.1).getTotalRowCount →
      (runAll cfg s input).2.2
        = .limitError ((runAll cfg s input).2.1).getTotalRowCount cfg.max_rows
            ((runAll cfg s input).2.1).getTotalByteCount cfg.max_bytes
      ∧ cfg.max_rows < ((runAll cfg s input).2.1).getTotalRowCount := by
  intro input
  induction input with
  | nil =>
    intro s hle hgt
    rw [runAll] at hgt
    exact absurd (show cfg.max_rows < s.getTotalRowCount from hgt) (by omega)
  | cons b rest ih =>
    intro s hle hgt
    have hh : ¬(cfg.limit_hint ≠ 0 ∧ cfg.limit_hint ≤ s.getTotalRowCount) := by
      simp [hhint]
    have hh0 : ¬(({cfg with max_rows := 0} : Config).limit_hint ≠ 0
        ∧ ({cfg with max_rows := 0} : Config).limit_hint ≤ s.getTotalRowCount) := by
      simp [hhint]
    have hcl0 : ∀ t : OpState, checkLimits {cfg with max_rows := 0} t = true := by
      intro t
      exact checkLimits_zero_limits {cfg with max_rows := 0} rfl hB t
    cases hbc : b.cols.isEmpty with
    | true =>
      rw [runAll_empty_block _ s b rest hh0 hbc] at hgt
      exact absurd (show cfg.max_rows < s.getTotalRowCount from hgt) (by omega)
    | false =>
      cases hkc : getKeyColumns cfg.columns_names b with
      | none =>
        rw [runAll_name_error _ s b rest hh0 hbc hkc] at hgt
        exact absurd (show cfg.max_rows < s.getTotalRowCount from hgt) (by omega)
      | some kcols =>
        cases kcols with
        | nil =>
          rw [runAll_passthrough _ s b rest hh0 hbc hkc] at hgt
          rw [runAll_passthrough cfg s b rest hh hbc hkc]
          exact ih s hle hgt
        | cons k0 ks0 =>
          have hkne : (List.cons k0 ks0).isEmpty = false := rfl
          have hbk := buildFilter_keys (rowKeysN (k0 :: ks0) b.rows) s
          by_cases hcnt : (buildFilter s (rowKeysN (k0 :: ks0) b.rows)).1.getTotalRowCount
              = s.getTotalRowCount
          · rw [runAll_skip _ s b rest hh0 hbc _ hkc hkne hcnt] at hgt
            rw [runAll_skip cfg s b rest hh hbc _ hkc hkne hcnt]
            rw [buildFilter_fst_eq _ s hcnt] at hgt ⊢
            exact ih s hle hgt
          · rw [runAll_emit _ s b rest hh0 hbc _ hkc hkne hcnt (hcl0 _)] at hgt
            by_cases hple : (buildFilter s (rowKeysN (k0 :: ks0) b.rows)).1.getTotalRowCount
                ≤ cfg.max_rows
            · have hlim : checkLimits cfg (buildFilter s (rowKeysN (k0 :: ks0) b.rows)).1
                  = true := by
                rw [checkLimits_eq_true_iff]
                exact ⟨Or.inr hple, Or.inl hB⟩
              rw [runAll_emit cfg s b rest hh hbc _ hkc hkne hcnt hlim]
              exact ih (buildFilter s (rowKeysN (k0 :: ks0) b.rows)).1 hple hgt
            · have hlim : checkLimits cfg (buildFilter s (rowKeysN (k0 :: ks0) b.rows)).1
                  = false := by
                cases hc : checkLimits cfg (buildFilter s (rowKeysN (k0 :: ks0) b.rows)).1 with
                | false => rfl
                | true =>
                  exfalso
                  rcases ((checkLimits_eq_true_iff cfg _).mp hc).1 with h | h
                  · exact hK h
                  · exact hple h
              rw [runAll_throw cfg s b rest hh hbc _ hkc hkne hcnt hlim hmode]
              refine ⟨rfl, ?_⟩
              show cfg.max_rows
                < (buildFilter s (rowKeysN (k0 :: ks0) b.rows)).1.getTotalRowCount
              omega

theorem readImpl_block_empty_key (cfg : Config) :
    ∀ (input : List Block) (s : OpState) (b' : Block) (s' : OpState)
      (rest' : List Block),
      readImpl cfg s input = (.block b', s', rest') →
      getKeyColumns cfg.columns_names b' = some [] →
      s' = s ∧ b' ∈ input := by
  intro input
  induction input with
  | nil =>
    intro s b' s' rest' hread _
    rw [readImpl] at hread
    simp at hread
  | cons b rest ih =>
    intro s b' s' rest' hread hempty
    by_cases hh : cfg.limit_hint ≠ 0 ∧ cfg.limit_hint ≤ s.getTotalRowCount
    · rw [readImpl_hint_stop cfg s b rest hh] at hread
      simp at hread
    · cases hbc : b.cols.isEmpty with
      | true =>
        rw [readImpl_empty_block cfg s b rest hh hbc] at hread
        simp at hread
      | false =>
        cases hkc : getKeyColumns cfg.columns_names b with
        | none =>
          rw [readImpl_name_error cfg s b rest hh hbc hkc] at hread
          simp at hread
        | some kcols =>
          cases kcols with
          | nil =>
            rw [readImpl_passthrough cfg s b rest hh hbc hkc] at hread
            simp only [Prod.mk.injEq, PullResult.block.injEq] at hread
            rcases hread with ⟨hb', hs', _⟩
            subst hb'
            subst hs'
            exact ⟨rfl, List.mem_cons_self b rest⟩
          | cons k0 ks0 =>
            have hkne : (List.cons k0 ks0).isEmpty = false := rfl
            by_cases hcnt : (buildFilter s (rowKeysN (k0 :: ks0) b.rows)).1.getTotalRowCount
                = s.getTotalRowCount
            · rw [readImpl_skip cfg s b rest hh hbc _ hkc hkne hcnt] at hread
              rw [buildFilter_fst_eq _ s hcnt] at hread
              rcases ih s b' s' rest' hread hempty with ⟨hs', hmem⟩
              exact ⟨hs', List.mem_cons_of_mem b hmem⟩
            · cases hlim : checkLimits cfg (buildFilter s (rowKeysN (k0 :: ks0) b.rows)).1 with
              | true =>
                rw [readImpl_emit cfg s b rest hh hbc _ hkc hkne hcnt hlim] at hread
                simp only [Prod.mk.injEq, PullResult.block.injEq] at hread
                rcases hread with ⟨hb', _, _⟩
                exfalso
                rw [← hb'] at hempty
                rw [getKeyColumns_filterBlock cfg.columns_names b _ (k0 :: ks0) hkc]
                  at hempty
                simp at hempty
              | false =>
                cases hmode : cfg.overflow_mode with
                | THROW =>
                  rw [readImpl_throw cfg s b rest hh hbc _ hkc hkne hcnt hlim hmode]
                    at hread
                  simp at hread
                | BREAK =>
                  rw [readImpl_break cfg s b rest hh hbc _ hkc hkne hcnt hlim hmode]
                    at hread
                  simp at hread

theorem readImpl_block_new_rows (cfg : Config) :
    ∀ (input : List Block) (s : OpState), BlocksWf input →
      ∀ (b' : Block) (s' : OpState) (rest' : List Block),
      readImpl cfg s input = (.block b', s', rest') →
      (getKeyColumns cfg.columns_names b' = some [] ∧ s' = s) ∨
      (s.getTotalRowCount < s'.getTotalRowCount ∧ 0 < b'.rows ∧
        b'.rows = s'.getTotalRowCount - s.getTotalRowCount) := by
  intro input
  induction input with
  | nil =>
    intro s _ b' s' rest' hread
    rw [readImpl] at hread
    simp at hread
  | cons b rest ih =>
    intro s hwf b' s' rest' hread
    have hwfb : BlockWf b := hwf b (List.mem_cons_self b rest)
    have hwfrest : BlocksWf rest := fun x hx => hwf x (List.mem_cons_of_mem b hx)
    by_cases hh : cfg.limit_hint ≠ 0 ∧ cfg.limit_hint ≤ s.getTotalRowCount
    · rw [readImpl_hint_stop cfg s b rest hh] at hread
      simp at hread
    · cases hbc : b.cols.isEmpty with
      | true =>
        rw [readImpl_empty_block cfg s b rest hh hbc] at hread
        simp at hread
      | false =>
        cases hkc : getKeyColumns cfg.columns_names b with
        | none =>
          rw [readImpl_name_error cfg s b rest hh hbc hkc] at hread
          simp at hread
        | some kcols =>
          cases kcols with
          | nil =>
            rw [readImpl_passthrough cfg s b rest hh hbc hkc] at hread
            simp only [Prod.mk.injEq, PullResult.block.injEq] at hread
            rcases hread with ⟨hb', hs', _⟩
            subst hb'
            subst hs'
            exact Or.inl ⟨hkc, rfl⟩
          | cons k0 ks0 =>
            have hkne : (List.cons k0 ks0).isEmpty = false := rfl
            by_cases hcnt : (buildFilter s (rowKeysN (k0 :: ks0) b.rows)).1.getTotalRowCount
                = s.getTotalRowCount
            · rw [readImpl_skip cfg s b rest hh hbc _ hkc hkne hcnt] at hread
              rw [buildFilter_fst_eq _ s hcnt] at hread
              exact ih s hwfrest b' s' rest' hread
            · cases hlim : checkLimits cfg (buildFilter s (rowKeysN (k0 :: ks0) b.rows)).1 with
              | true =>
                rw [readImpl_emit cfg s b rest hh hbc _ hkc hkne hcnt hlim] at hread
                simp only [Prod.mk.injEq, PullResult.block.injEq] at hread
                rcases hread with ⟨hb', hs', _⟩
                subst hb'
                subst hs'
                refine Or.inr ?_
                have hflen : (buildFilter s (rowKeysN (k0 :: ks0) b.rows)).2.length
                    = b.rows := by
                  rw [buildFilter_snd_length, rowKeysN_length]
                have hrows : (filterBlock b (buildFilter s (rowKeysN (k0 :: ks0) b.rows)).2).rows
                    = countTrue (buildFilter s (rowKeysN (k0 :: ks0) b.rows)).2 :=
                  filterBlock_rows b _ (ne_nil_of_isEmpty_false hbc) hwfb hflen
                have hct : countTrue (buildFilter s (rowKeysN (k0 :: ks0) b.rows)).2
                    = (selectTrue (buildFilter s (rowKeysN (k0 :: ks0) b.rows)).2
                        (rowKeysN (k0 :: ks0) b.rows)).length := by
                  rw [selectTrue_length _ _ (by rw [hflen, rowKeysN_length])]
                have hplen : (buildFilter s (rowKeysN (k0 :: ks0) b.rows)).1.keys.length
                    = s.keys.length
                      + (selectTrue (buildFilter s (rowKeysN (k0 :: ks0) b.rows)).2
                          (rowKeysN (k0 :: ks0) b.rows)).length := by
                  rw [buildFilter_keys (rowKeysN (k0 :: ks0) b.rows) s, List.length_append]
                have hcnt' : (buildFilter s (rowKeysN (k0 :: ks0) b.rows)).1.keys.length
                    ≠ s.keys.length := hcnt
                rw [hrows, hct]
                simp only [OpState.getTotalRowCount]
                omega
              | false =>
                cases hmode : cfg.overflow_mode with
                | THROW =>
                  rw [readImpl_throw cfg s b rest hh hbc _ hkc hkne hcnt hlim hmode]
                    at hread
                  simp at hread
                | BREAK =>
                  rw [readImpl_break cfg s b rest hh hbc _ hkc hkne hcnt hlim hmode]
                    at hread
                  simp at hread

theorem runAll_eq_readImpl (cfg : Config) :
    ∀ (input : List Block) (s : OpState),
      runAll cfg s input
        = match readImpl cfg s input with
          | (.block b, s', rest) =>
            (b :: (runAll cfg s' rest).1, (runAll cfg s' rest).2)
          | (r, s', _) => ([], s', r) := by
  intro input
  induction input with
  | nil => intro s; rw [readImpl, runAll]
  | cons b rest ih =>
    intro s
    by_cases hh : cfg.limit_hint ≠ 0 ∧ cfg.limit_hint ≤ s.getTotalRowCount
    · rw [readImpl_hint_stop cfg s b rest hh, runAll_hint_stop cfg s b rest hh]
    · cases hbc : b.cols.isEmpty with
      | true =>
        rw [readImpl_empty_block cfg s b rest hh hbc,
          runAll_empty_block cfg s b rest hh hbc]
      | false =>
        cases hkc : getKeyColumns cfg.columns_names b with
        | none =>
          rw [readImpl_name_error cfg s b rest hh hbc hkc,
            runAll_name_error cfg s b rest hh hbc hkc]
        | some kcols =>
          cases kcols with
          | nil =>
            rw [readImpl_passthrough cfg s b rest hh hbc hkc,
              runAll_passthrough cfg s b rest hh hbc hkc]
          | cons k0 ks0 =>
            have hkne : (List.cons k0 ks0).isEmpty = false := rfl
            by_cases hcnt : (buildFilter s (rowKeysN (k0 :: ks0) b.rows)).1.getTotalRowCount
                = s.getTotalRowCount
            · rw [readImpl_skip cfg s b rest hh hbc _ hkc hkne hcnt,
                runAll_skip cfg s b rest hh hbc _ hkc hkne hcnt]
              exact ih _
            · cases hlim : checkLimits cfg (buildFilter s (rowKeysN (k0 :: ks0) b.rows)).1 with
              | true =>
                rw [readImpl_emit cfg s b rest hh hbc _ hkc hkne hcnt hlim,
                  runAll_emit cfg s b rest hh hbc _ hkc hkne hcnt hlim]
              | false =>
                cases hmode : cfg.overflow_mode with
                | THROW =>
                  rw [readImpl_throw cfg s b rest hh hbc _ hkc hkne hcnt hlim hmode,
                    runAll_throw cfg s b rest hh hbc _ hkc hkne hcnt hlim hmode]
                | BREAK =>
                  rw [readImpl_break cfg s b rest hh hbc _ hkc hkne hcnt hlim hmode,
                    runAll_break cfg s b rest hh hbc _ hkc hkne hcnt hlim hmode]

/-! The claims. -/

/-- Claim C1, counterexample to the claim as stated: with key configured on
column `a` and a single input block whose `a` column is constant (two rows,
both `a = 5`), the operator returns the block unmodified, so the output holds
two rows with equal values on every key column — uniqueness fails in the
all-constant-key passthrough case. -/
theorem distinct_uniqueness_cex :
    (runAll cexConfig ⟨[]⟩ [cexBlock]).1 = [cexBlock] ∧
    blockRows cexBlock = [[Val.int 5], [Val.int 5]] ∧
    ¬ ((runAll cexConfig ⟨[]⟩ [cexBlock]).1.flatMap
        (rowKeyTuples cexConfig.columns_names)).Nodup := by
  decide

/-- Claim C1, amended: for every input block sequence and key configuration,
no two rows in the concatenation of the returned blocks that underwent key
filtering (blocks whose key-column set resolved non-empty) have equal key
tuples; all-constant-key passthrough blocks are exempt. -/
theorem distinct_uniqueness (cfg : Config) (input : List Block)
    (hwf : BlocksWf input) :
    ((runAll cfg ⟨[]⟩ input).1.flatMap (blockKeys cfg.columns_names)).Nodup := by
  rcases runAll_keys cfg input ⟨[]⟩ hwf (by simp) with ⟨t, ht, hnd⟩
  rw [List.nil_append] at ht
  rw [ht] at hnd
  exact (List.sublist_append_left _ t).nodup hnd

/-- Claim C1 witness: the spec's concrete scenario, key `[a, b]`, two blocks;
the emitted key tuples are pairwise distinct. -/
theorem distinct_uniqueness_witness :
    ((runAll scenConfig ⟨[]⟩ [scenBlock1, scenBlock2]).1.flatMap
      (blockKeys scenConfig.columns_names)).Nodup :=
  distinct_uniqueness scenConfig [scenBlock1, scenBlock2] (by decide)

/-- Claim C2, counterexample to the claim as stated: with `max_rows = 1` and
Break mode, the first pull detects the limit violation and signals
end-of-data, but the next pull returns the following all-constant-key block
unmodified instead of signaling end-of-data — the operator keeps no terminal
state across pulls. -/
theorem distinct_break_cex :
    readImpl breakConfig ⟨[]⟩ [blkTwo, blkConst]
      = (.endOfData, ⟨[[Val.int 1], [Val.int 2]]⟩, [blkConst]) ∧
    checkLimits breakConfig ⟨[[Val.int 1], [Val.int 2]]⟩ = false ∧
    readImpl breakConfig ⟨[[Val.int 1], [Val.int 2]]⟩ [blkConst]
      = (.block blkConst, ⟨[[Val.int 1], [Val.int 2]]⟩, []) := by
  decide

/-- Claim C2, amended: in Break mode, the pull during which the limit
violation arises signals end-of-data and no pull ever raises the limit error;
a pull starting from a violating state also signals end-of-data provided the
remaining upstream blocks resolve to non-empty key sets (an all-constant-key
block is still returned unmodified), and the violating state persists across
pulls; the filtered blocks returned over a whole run are duplicate-free and
together hold at most `max_rows` rows. -/
theorem distinct_break_mode (cfg : Config)
    (hmode : cfg.overflow_mode = .BREAK) :
    (∀ (s : OpState) (input : List Block),
        checkLimits cfg s = true →
        checkLimits cfg ((readImpl cfg s input).2.1) = false →
        (readImpl cfg s input).1 = .endOfData) ∧
    (∀ (s : OpState) (input : List Block),
        ((readImpl cfg s input).1).isLimitError = false) ∧
    (∀ (s : OpState) (input : List Block),
        checkLimits cfg s = false →
        (∀ b ∈ input, ∃ kc, getKeyColumns cfg.columns_names b = some kc ∧ kc ≠ []) →
        (readImpl cfg s input).1 = .endOfData) ∧
    (∀ (s : OpState) (input : List Block),
        checkLimits cfg s = false →
        checkLimits cfg ((readImpl cfg s input).2.1) = false) ∧
    (∀ (input : List Block), BlocksWf input → cfg.max_rows ≠ 0 →
        ((runAll cfg ⟨[]⟩ input).1.flatMap (blockKeys cfg.columns_names)).Nodup ∧
        ((runAll cfg ⟨[]⟩ input).1.flatMap (blockKeys cfg.columns_names)).length
          ≤ cfg.max_rows) := by
  refine ⟨?_, ?_, ?_, ?_, ?_⟩
  · intro s input h1 h2
    exact readImpl_break_pull_eod cfg hmode input s h1 h2
  · intro s input
    exact readImpl_break_never_limit_error cfg hmode input s
  · intro s input h1 h2
    exact readImpl_break_eod cfg hmode input s h1 h2
  · intro s input h1
    exact checkLimits_false_preserved cfg input s h1
  · intro input hwf hK
    constructor
    · rcases runAll_keys cfg input ⟨[]⟩ hwf (by simp) with ⟨t, ht, hnd⟩
      rw [List.nil_append] at ht
      rw [ht] at hnd
      exact (List.sublist_append_left _ t).nodup hnd
    · have := runAll_emitted_le cfg hK input ⟨[]⟩ hwf (by simp)
      simpa using this

/-- Claim C2 witness: the amended statement instantiated at the Break
configuration with `max_rows = 1`. -/
theorem distinct_break_mode_witness :
    (∀ (s : OpState) (input : List Block),
        checkLimits breakConfig s = true →
        checkLimits breakConfig ((readImpl breakConfig s input).2.1) = false →
        (readImpl breakConfig s input).1 = .endOfData) ∧
    (∀ (s : OpState) (input : List Block),
        ((readImpl breakConfig s input).1).isLimitError = false) ∧
    (∀ (s : OpState) (input : List Block),
        checkLimits breakConfig s = false →
        (∀ b ∈ input, ∃ kc, getKeyColumns breakConfig.columns_names b = some kc
          ∧ kc ≠ []) →
        (readImpl breakConfig s input).1 = .endOfData) ∧
    (∀ (s : OpState) (input : List Block),
        checkLimits breakConfig s = false →
        checkLimits breakConfig ((readImpl breakConfig s input).2.1) = false) ∧
    (∀ (input : List Block), BlocksWf input → breakConfig.max_rows ≠ 0 →
        ((runAll breakConfig ⟨[]⟩ input).1.flatMap
          (blockKeys breakConfig.columns_names)).Nodup ∧
        ((runAll breakConfig ⟨[]⟩ input).1.flatMap
          (blockKeys breakConfig.columns_names)).length
          ≤ breakConfig.max_rows) :=
  distinct_break_mode breakConfig rfl

/-- Claim C3: a pull that returns a block whose key-column set resolves empty
returns that block exactly as it came from upstream (it is an element of the
input sequence, unmodified) and leaves the distinct-key state — hash table,
cumulative row count, cumulative byte count — exactly as it was. -/
theorem distinct_no_key_passthrough (cfg : Config) (input : List Block)
    (s : OpState) (b' : Block) (s' : OpState) (rest' : List Block)
    (hread : readImpl cfg s input = (.block b', s', rest'))
    (hempty : getKeyColumns cfg.columns_names b' = some []) :
    s' = s ∧ b' ∈ input :=
  readImpl_block_empty_key cfg input s b' s' rest' hread hempty

/-- Claim C3 witness: the all-constant-key block is returned unmodified and
the state is untouched. -/
theorem distinct_no_key_passthrough_witness :
    (⟨[]⟩ : OpState) = ⟨[]⟩ ∧ cexBlock ∈ [cexBlock] :=
  distinct_no_key_passthrough cexConfig [cexBlock] ⟨[]⟩ cexBlock ⟨[]⟩ []
    (by decide) (by decide)

/-- Claim C4: with `max_rows = K ≠ 0`, Throw mode and no byte limit, any pull
that crosses the limit returns the limit-exceeded error carrying the current
distinct-row count, the row limit, the current byte count and the byte limit,
and returns no block; a whole run (hint disabled) whose unlimited processing
would accumulate more than `K` distinct rows ends in that error; and the
blocks returned before it hold at most `K` distinct rows. -/
theorem distinct_throw_mode (cfg : Config) (K : Nat) (hK : cfg.max_rows = K)
    (hK0 : K ≠ 0) (hB : cfg.max_bytes = 0)
    (hmode : cfg.overflow_mode = .THROW) :
    (∀ (s : OpState) (input : List Block),
        s.getTotalRowCount ≤ K →
        K < ((readImpl cfg s input).2.1).getTotalRowCount →
        (readImpl cfg s input).1
          = .limitError ((readImpl cfg s input).2.1).getTotalRowCount K
              ((readImpl cfg s input).2.1).getTotalByteCount 0) ∧
    (cfg.limit_hint = 0 → ∀ (s : OpState) (input : List Block),
        s.getTotalRowCount ≤ K →
        K < ((runAll {cfg with max_rows := 0} s input).2.1).getTotalRowCount →
        (runAll cfg s input).2.2
          = .limitError ((runAll cfg s input).2.1).getTotalRowCount K
              ((runAll cfg s input).2.1).getTotalByteCount 0
          ∧ K < ((runAll cfg s input).2.1).getTotalRowCount) ∧
    (∀ (input : List Block), BlocksWf input →
        ((runAll cfg ⟨[]⟩ input).1.flatMap (blockKeys cfg.columns_names)).length
          ≤ K) := by
  subst hK
  refine ⟨?_, ?_, ?_⟩
  · intro s input h1 h2
    have h := readImpl_throw_crossing cfg hmode hK0 input s h1 h2
    rw [hB] at h
    exact h
  · intro hhint s input h1 h2
    have h := runAll_throw_reaches cfg hmode hK0 hB hhint input s h1 h2
    rw [hB] at h
    exact h
  · intro input hwf
    have := runAll_emitted_le cfg hK0 input ⟨[]⟩ hwf (by simp)
    simpa using this

/-- Claim C4 witness: the Throw-mode statement instantiated at the
configuration with `max_rows = 2`. -/
theorem distinct_throw_mode_witness :
    (∀ (s : OpState) (input : List Block),
        s.getTotalRowCount ≤ 2 →
        2 < ((readImpl throwConfig s input).2.1).getTotalRowCount →
        (readImpl throwConfig s input).1
          = .limitError ((readImpl throwConfig s input).2.1).getTotalRowCount 2
              ((readImpl throwConfig s input).2.1).getTotalByteCount 0) ∧
    (throwConfig.limit_hint = 0 → ∀ (s : OpState) (input : List Block),
        s.getTotalRowCount ≤ 2 →
        2 < ((runAll {throwConfig with max_rows := 0} s input).2.1).getTotalRowCount →
        (runAll throwConfig s input).2.2
          = .limitError ((runAll throwConfig s input).2.1).getTotalRowCount 2
              ((runAll throwConfig s input).2.1).getTotalByteCount 0
          ∧ 2 < ((runAll throwConfig s input).2.1).getTotalRowCount) ∧
    (∀ (input : List Block), BlocksWf input →
        ((runAll throwConfig ⟨[]⟩ input).1.flatMap
          (blockKeys throwConfig.columns_names)).length ≤ 2) :=
  distinct_throw_mode throwConfig 2 rfl (by decide) rfl rfl

/-- Claim C5: the limit check returns true exactly when the nonzero row limit
is not exceeded by the cumulative distinct-row count and the nonzero byte
limit is not exceeded by the cumulative byte count (a zero limit disables
that dimension); it is a function of the cumulative distinct-key state. -/
theorem distinct_check_limits (cfg : Config) (s : OpState) :
    checkLimits cfg s = true ↔
      ((cfg.max_rows = 0 ∨ s.getTotalRowCount ≤ cfg.max_rows) ∧
       (cfg.max_bytes = 0 ∨ s.getTotalByteCount ≤ cfg.max_bytes)) :=
  checkLimits_eq_true_iff cfg s

/-- Claim C6: every block a pull returns is either the unmodified
all-constant-key passthrough block (state untouched) or contains at least one
row, exactly the rows whose keys were new — the loop never surfaces an empty
filtered block, discarding all-already-seen blocks instead. -/
theorem distinct_empty_result_suppression (cfg : Config) (input : List Block)
    (s : OpState) (hwf : BlocksWf input) (b' : Block) (s' : OpState)
    (rest' : List Block)
    (hread : readImpl cfg s input = (.block b', s', rest')) :
    (getKeyColumns cfg.columns_names b' = some [] ∧ s' = s) ∨
    (s.getTotalRowCount < s'.getTotalRowCount ∧ 0 < b'.rows ∧
      b'.rows = s'.getTotalRowCount - s.getTotalRowCount) :=
  readImpl_block_new_rows cfg input s hwf b' s' rest' hread

/-- Claim C6 witness: the scenario's first block is returned with its three
new-key rows, a positive row count. -/
theorem distinct_empty_result_suppression_witness :
    (getKeyColumns scenConfig.columns_names scenBlock1 = some [] ∧
      (⟨[[Val.int 1, Val.str "x"], [Val.int 1, Val.str "y"],
         [Val.int 2, Val.str "x"]]⟩ : OpState) = ⟨[]⟩) ∨
    ((⟨[]⟩ : OpState).getTotalRowCount
        < (⟨[[Val.int 1, Val.str "x"], [Val.int 1, Val.str "y"],
             [Val.int 2, Val.str "x"]]⟩ : OpState).getTotalRowCount ∧
      0 < scenBlock1.rows ∧
      scenBlock1.rows
        = (⟨[[Val.int 1, Val.str "x"], [Val.int 1, Val.str "y"],
             [Val.int 2, Val.str "x"]]⟩ : OpState).getTotalRowCount
          - (⟨[]⟩ : OpState).getTotalRowCount) :=
  distinct_empty_result_suppression scenConfig [scenBlock1] ⟨[]⟩ (by decide)
    scenBlock1
    ⟨[[Val.int 1, Val.str "x"], [Val.int 1, Val.str "y"],
      [Val.int 2, Val.str "x"]]⟩ [] (by decide)

/-- Claim C7: when the row-count hint is nonzero and the cumulative
distinct-row count already meets or exceeds it, the pull signals end-of-data
immediately, leaving the state and the upstream input untouched — checked
before reading upstream and before any hard-limit check. -/
theorem distinct_hint_early_stop (cfg : Config) (s : OpState)
    (input : List Block) (h1 : cfg.limit_hint ≠ 0)
    (h2 : cfg.limit_hint ≤ s.getTotalRowCount) :
    readImpl cfg s input = (.endOfData, s, input) := by
  cases input with
  | nil => rw [readImpl]
  | cons b rest => exact readImpl_hint_stop cfg s b rest ⟨h1, h2⟩

/-- Claim C7 witness: with `limit_hint = 1` and one key already stored, the
pull ends the stream although an upstream block remains. -/
theorem distinct_hint_early_stop_witness :
    readImpl hintConfig ⟨[[Val.int 9]]⟩ [blkTwo]
      = (.endOfData, ⟨[[Val.int 9]]⟩, [blkTwo]) :=
  distinct_hint_early_stop hintConfig ⟨[[Val.int 9]]⟩ [blkTwo]
    (by decide) (by decide)

/-- Claim C8: compaction keeps, in every column independently and in order,
exactly the rows whose filter entry is true, so the concatenation of all
returned blocks, read by row, is a subsequence of the concatenation of the
input rows in original relative order. -/
theorem distinct_order_preservation (cfg : Config) (s : OpState)
    (input : List Block) (hwf : BlocksWf input) :
    ((runAll cfg s input).1.flatMap blockRows).Sublist
      (input.flatMap blockRows) ∧
    (∀ (b : Block) (f : List Bool), BlockWf b → f.length = b.rows →
      blockRows (filterBlock b f) = selectTrue f (blockRows b)) :=
  ⟨runAll_rows_sublist cfg input s hwf,
   fun b f hw hf => blockRows_filterBlock b f hw hf⟩

/-- Claim C8 witness: the scenario's output rows form a subsequence of its
input rows. -/
theorem distinct_order_preservation_witness :
    ((runAll scenConfig ⟨[]⟩ [scenBlock1, scenBlock2]).1.flatMap
      blockRows).Sublist ([scenBlock1, scenBlock2].flatMap blockRows) ∧
    (∀ (b : Block) (f : List Bool), BlockWf b → f.length = b.rows →
      blockRows (filterBlock b f) = selectTrue f (blockRows b)) :=
  distinct_order_preservation scenConfig ⟨[]⟩ [scenBlock1, scenBlock2]
    (by decide)

/-- Claim C9: opening the read buffer by file name fails with
`FILE_DOESNT_EXIST` exactly when the underlying `open` fails with `ENOENT`,
with `CANNOT_OPEN_FILE` for every other open failure, and the explicit close
fails with `CANNOT_CLOSE_FILE` exactly when the underlying `close` fails. -/
theorem read_buffer_error_kinds (openRet : Int) (openErrno : Nat)
    (closeRet : Int) :
    (readBufferOpen openRet openErrno = .error .FILE_DOESNT_EXIST
        ↔ (openRet = -1 ∧ openErrno = ENOENT)) ∧
    (readBufferOpen openRet openErrno = .error .CANNOT_OPEN_FILE
        ↔ (openRet = -1 ∧ openErrno ≠ ENOENT)) ∧
    (readBufferClose closeRet = .error .CANNOT_CLOSE_FILE ↔ closeRet ≠ 0) := by
  unfold readBufferOpen readBufferClose
  split_ifs with h1 h2 <;> simp_all

/-- Claim C10: a pull whose block misses a configured key-column name
propagates the failed named-column lookup as an error instead of silently
ignoring the name; the state is unchanged. -/
theorem distinct_missing_key_column (cfg : Config) (s : OpState) (b : Block)
    (rest : List Block) (n : String)
    (hn : n ∈ cfg.columns_names) (hmiss : b.getByName n = none)
    (hcols : b.cols ≠ [])
    (hhint : ¬(cfg.limit_hint ≠ 0 ∧ cfg.limit_hint ≤ s.getTotalRowCount)) :
    readImpl cfg s (b :: rest) = (.nameError, s, rest) :=
  readImpl_name_error cfg s b rest hhint (isEmpty_false_of_ne_nil hcols)
    (getKeyColumns_eq_none cfg.columns_names b n hn hmiss)

/-- Claim C10 witness: the configuration naming the absent column `"zz"`
fails the pull with the lookup error. -/
theorem distinct_missing_key_column_witness :
    readImpl missConfig ⟨[]⟩ (blkTwo :: []) = (.nameError, ⟨[]⟩, []) :=
  distinct_missing_key_column missConfig ⟨[]⟩ blkTwo [] "zz"
    (by decide) (by decide) (by decide) (by decide)

end DB
